import Mathlib

/-!
Verification of the ByteFlow dataflow-graph execution model.

This file gives a shallow embedding, in Lean 4, of the ByteFlow
repository's core: the transform catalog (src/nodes/), the pull-based
evaluation engine (src/nodes/base.py), and the headless pipeline runner
(src/pipeline.py).  Byte buffers are `List Nat` with every element < 256;
Python strings are Lean `String`; fallible Python operations return
`Option` or `Except`.  Each definition is translated from the source file
and lines named in its doc comment.  External library primitives that the
repository calls (hashlib, PyCryptodome) are modelled from their
documented algorithms and marked as such.
-/

set_option maxHeartbeats 1000000

set_option maxRecDepth 100000

/-- A byte buffer: the sole value flowing along any connection.  Bytes are
naturals; validity (`< 256`) is carried as a hypothesis where needed. -/
abbrev Bytes := List Nat

/-- Every element of the buffer is a byte value. -/
def ValidBytes (l : Bytes) : Prop := ∀ x ∈ l, x < 256

instance : DecidablePred ValidBytes := fun l => List.decidableBAll _ l

/-- Characters Python's `str.strip()` and `int()` treat as whitespace. -/
def isPyWs (c : Char) : Bool :=
  c = ' ' || c = '\t' || c = '\n' || c = '\x0d' || c = '\x0b' || c = '\x0c'

/-- Strip leading and trailing whitespace from a character list. -/
def trimWs (l : List Char) : List Char :=
  ((l.dropWhile isPyWs).reverse.dropWhile isPyWs).reverse

/-- Python `str.strip()`. -/
def pyStrip (s : String) : String := String.mk (trimWs s.data)

/-- Digit run with Python's underscore rule: underscores may appear only
between digits, never doubled, leading or trailing. -/
def digitsAux : List Char → Nat → Option Nat
  | [], acc => some acc
  | '_' :: c :: rest, acc =>
    if c.isDigit then digitsAux rest (acc * 10 + (c.toNat - 48)) else none
  | ['_'], _ => none
  | c :: rest, acc =>
    if c.isDigit then digitsAux rest (acc * 10 + (c.toNat - 48)) else none

/-- Value of a nonempty digit run (with Python underscore grouping). -/
def digitsVal : List Char → Option Nat
  | [] => none
  | c :: rest => if c.isDigit then digitsAux rest (c.toNat - 48) else none

/-- Python `int(s)` on a decimal string: strips whitespace, allows one
sign, then digits (with underscore grouping); anything else raises
`ValueError`, modelled as `none`. -/
def pyInt (s : String) : Option Int :=
  match trimWs s.data with
  | '-' :: rest => (digitsVal rest).map (fun n => -(n : Int))
  | '+' :: rest => (digitsVal rest).map (fun n => (n : Int))
  | rest => (digitsVal rest).map (fun n => (n : Int))

/-- Hex digit value, both cases, as in Python's `bytes.fromhex`. -/
def hexVal (c : Char) : Option Nat :=
  if c.isDigit then some (c.toNat - 48)
  else if 'a' ≤ c && c ≤ 'f' then some (c.toNat - 87)
  else if 'A' ≤ c && c ≤ 'F' then some (c.toNat - 55)
  else none

/-- Pairs of hex digits to bytes; an odd count or a non-hex character is a
`ValueError` (`none`).  The call sites in the source strip the blank
characters they tolerate before calling `bytes.fromhex`. -/
def pyFromHexAux : List Char → Option (List Nat)
  | [] => some []
  | [_] => none
  | c1 :: c2 :: rest => do
    let h ← hexVal c1
    let lo ← hexVal c2
    let t ← pyFromHexAux rest
    pure ((h * 16 + lo) :: t)

/-- Python `bytes.fromhex(s)`. -/
def pyFromHex (s : String) : Option Bytes := pyFromHexAux s.data

/-- Python `s.replace(c, '')` for a single character `c`. -/
def removeChar (c : Char) (s : String) : String :=
  String.mk (s.data.filter (fun x => x ≠ c))

/-- UTF-8 encoding of one scalar value (Python `chr(n).encode('utf-8')`). -/
def utf8Char (c : Char) : List Nat :=
  let n := c.toNat
  if n < 128 then [n]
  else if n < 2048 then [192 + n / 64, 128 + n % 64]
  else if n < 65536 then [224 + n / 4096, 128 + (n / 64) % 64, 128 + n % 64]
  else [240 + n / 262144, 128 + (n / 4096) % 64, 128 + (n / 64) % 64, 128 + n % 64]

/-- Python `text.encode('utf-8')`. -/
def utf8Encode (s : String) : Bytes := (s.data.map utf8Char).flatten

/-- Continuation byte test for strict UTF-8 decoding. -/
def contByte (b : Nat) : Bool := 128 ≤ b && b < 192

/-- Strict UTF-8 decoder: rejects overlong forms, surrogates and values
above U+10FFFF, as Python's `bytes.decode('utf-8')` does. -/
def utf8DecodeAux : List Nat → Option (List Char)
  | [] => some []
  | b0 :: rest =>
    if b0 < 128 then (utf8DecodeAux rest).map (fun t => Char.ofNat b0 :: t)
    else if 194 ≤ b0 && b0 < 224 then
      match rest with
      | b1 :: rest' =>
        if contByte b1 then
          (utf8DecodeAux rest').map (fun t => Char.ofNat ((b0 - 192) * 64 + (b1 - 128)) :: t)
        else none
      | [] => none
    else if 224 ≤ b0 && b0 < 240 then
      match rest with
      | b1 :: b2 :: rest' =>
        let lo1 := if b0 = 224 then 160 else 128
        let hi1 := if b0 = 237 then 160 else 192
        if (lo1 ≤ b1 && b1 < hi1) && contByte b2 then
          (utf8DecodeAux rest').map
            (fun t => Char.ofNat ((b0 - 224) * 4096 + (b1 - 128) * 64 + (b2 - 128)) :: t)
        else none
      | _ => none
    else if 240 ≤ b0 && b0 < 245 then
      match rest with
      | b1 :: b2 :: b3 :: rest' =>
        let lo1 := if b0 = 240 then 144 else 128
        let hi1 := if b0 = 244 then 144 else 192
        if ((lo1 ≤ b1 && b1 < hi1) && contByte b2) && contByte b3 then
          (utf8DecodeAux rest').map
            (fun t =>
              Char.ofNat ((b0 - 240) * 262144 + (b1 - 128) * 4096 + (b2 - 128) * 64 + (b3 - 128)) :: t)
        else none
      | _ => none
    else none

/-- Python `data.decode('utf-8')`; `none` models `UnicodeDecodeError`. -/
def utf8Decode (l : Bytes) : Option String := (utf8DecodeAux l).map String.mk

/-- Lowercase hex digit character. -/
def hexDigitChar (n : Nat) : Char :=
  if n < 10 then Char.ofNat (48 + n) else Char.ofNat (87 + n)

/-- Python `data.hex()`. -/
def bytesHex (l : Bytes) : String :=
  String.mk ((l.map (fun b => [hexDigitChar (b / 16), hexDigitChar (b % 16)])).flatten)

/-- ASCII bytes of a string (used for ASCII-hex digests). -/
def asciiBytes (s : String) : Bytes := s.data.map Char.toNat

/-- ROTNode.process (src/nodes/encoding_nodes.py lines 87-108): Caesar
shift over ASCII letters; the shift parameter is parsed with `int` and
taken mod 26, falling back to 13 on a `ValueError`. -/
def ROTNode.process (shiftParam : String) (data : Bytes) : Bytes :=
  if data = [] then []
  else
    let shift : Nat :=
      match pyInt shiftParam with
      | some n => (n % 26).toNat
      | none => 13
    data.map (fun b =>
      if 97 ≤ b && b ≤ 122 then (b - 97 + shift) % 26 + 97
      else if 65 ≤ b && b ≤ 90 then (b - 65 + shift) % 26 + 65
      else b)

/-- RepeatNode.process (src/nodes/util_nodes.py lines 153-164): repeats
the buffer `count` times, `count = max(1, int(param))`, falling back to 1
(not to the catalog default `'2'`) on a `ValueError`. -/
def RepeatNode.process (countParam : String) (data : Bytes) : Bytes :=
  if data = [] then []
  else
    let count : Int :=
      match pyInt countParam with
      | some n => max 1 n
      | none => 1
    (List.replicate count.toNat data).flatten

/-- Normalise one Python slice index against a length. -/
def pySliceIdx (len : Nat) (i : Int) : Nat :=
  if i < 0 then ((len : Int) + i).toNat else min i.toNat len

/-- Python `l[a:b]` with standard slice semantics (negative indices count
from the end, out-of-range indices clamp, `none` means an omitted bound). -/
def pySlice (l : Bytes) (a b : Option Int) : Bytes :=
  let len := l.length
  let s := match a with | none => 0 | some i => pySliceIdx len i
  let e := match b with | none => len | some i => pySliceIdx len i
  (l.take e).drop s

/-- TakeBytesNode.process (src/nodes/util_nodes.py lines 189-238): two
addressing modes; parameters are stripped then parsed with `int`, with
the fallbacks of the source (`start` falls back to 0, `param2` to None). -/
def TakeBytesNode.process (mode startParam param2Param : String) (data : Bytes) : Bytes :=
  if data = [] then []
  else
    let startStr := pyStrip startParam
    let param2Str := pyStrip param2Param
    let start : Option Int :=
      if startStr ≠ "" then some ((pyInt startStr).getD 0)
      else if mode = "Start + End" then none else some 0
    let param2 : Option Int :=
      if param2Str ≠ "" then pyInt param2Str else none
    if mode = "Start + Length" then
      let s : Int := start.getD 0
      match param2 with
      | none => pySlice data (some s) none
      | some p2 =>
        let actualStart : Int := if s < 0 then (data.length : Int) + s else s
        pySlice data (some actualStart) (some (actualStart + p2))
    else
      pySlice data start param2

/-- XORNode.process, lines 72-78 of src/nodes/crypto_nodes.py: once the
key is settled, empty data or an empty key yields an empty output,
otherwise data is XORed with the repeating key. -/
def XORNode.xorWithKey (data key : Bytes) : Bytes :=
  if data = [] ∨ key = [] then []
  else data.enum.map (fun p => p.2 ^^^ key.getD (p.1 % key.length) 0)

/-- The `if not key:` fallback shared by XOR, RC4 and AES
(src/nodes/crypto_nodes.py): a connected port value is used only when it
is non-empty; an empty port value (disconnected port, or an upstream that
resolved to an empty buffer) falls back to the shadowed parameter. -/
def resolveShadowed (portVal fallback : Bytes) : Bytes :=
  if portVal = [] then fallback else portVal

/-- Key text parameter parsing shared by XOR and RC4: spaces are removed,
then `bytes.fromhex`; a `ValueError` falls back to the single byte 0. -/
def keyHexOrZero (keyHex : String) : Bytes :=
  (pyFromHex (removeChar ' ' keyHex)).getD [0]

/-- XORNode.process (src/nodes/crypto_nodes.py lines 60-78), with the
`data` and `key` input-port buffers already resolved. -/
def XORNode.process (keyHexParam : String) (data keyPort : Bytes) : Bytes :=
  XORNode.xorWithKey data (resolveShadowed keyPort (keyHexOrZero keyHexParam))

/-- The 64 MD5 sine-derived constants of RFC 1321. -/
def md5K : List Nat :=
  [3614090360, 3905402710, 606105819, 3250441966,
   4118548399, 1200080426, 2821735955, 4249261313,
   1770035416, 2336552879, 4294925233, 2304563134,
   1804603682, 4254626195, 2792965006, 1236535329,
   4129170786, 3225465664, 643717713, 3921069994,
   3593408605, 38016083, 3634488961, 3889429448,
   568446438, 3275163606, 4107603335, 1163531501,
   2850285829, 4243563512, 1735328473, 2368359562,
   4294588738, 2272392833, 1839030562, 4259657740,
   2763975236, 1272893353, 4139469664, 3200236656,
   681279174, 3936430074, 3572445317, 76029189,
   3654602809, 3873151461, 530742520, 3299628645,
   4096336452, 1126891415, 2878612391, 4237533241,
   1700485571, 2399980690, 4293915773, 2240044497,
   1873313359, 4264355552, 2734768916, 1309151649,
   4149444226, 3174756917, 718787259, 3951481745]

/-- The per-step left-rotation amounts of RFC 1321. -/
def md5S : List Nat :=
  [7, 12, 17, 22, 7, 12, 17, 22, 7, 12, 17, 22, 7, 12, 17, 22,
   5, 9, 14, 20, 5, 9, 14, 20, 5, 9, 14, 20, 5, 9, 14, 20,
   4, 11, 16, 23, 4, 11, 16, 23, 4, 11, 16, 23, 4, 11, 16, 23,
   6, 10, 15, 21, 6, 10, 15, 21, 6, 10, 15, 21, 6, 10, 15, 21]

/-- The 64 SHA-256 round constants of FIPS 180-4. -/
def sha256K : List Nat :=
  [1116352408, 1899447441, 3049323471, 3921009573,
   961987163, 1508970993, 2453635748, 2870763221,
   3624381080, 310598401, 607225278, 1426881987,
   1925078388, 2162078206, 2614888103, 3248222580,
   3835390401, 4022224774, 264347078, 604807628,
   770255983, 1249150122, 1555081692, 1996064986,
   2554220882, 2821834349, 2952996808, 3210313671,
   3336571891, 3584528711, 113926993, 338241895,
   666307205, 773529912, 1294757372, 1396182291,
   1695183700, 1986661051, 2177026350, 2456956037,
   2730485921, 2820302411, 3259730800, 3345764771,
   3516065817, 3600352804, 4094571909, 275423344,
   430227734, 506948616, 659060556, 883997877,
   958139571, 1322822218, 1537002063, 1747873779,
   1955562222, 2024104815, 2227730452, 2361852424,
   2428436474, 2756734187, 3204031479, 3329325298]

/-- Reduction mod 2^32 for 32-bit machine words. -/
def m32 (x : Nat) : Nat := x % 4294967296

/-- 32-bit addition. -/
def add32 (a b : Nat) : Nat := m32 (a + b)

/-- 32-bit left rotation of a word already < 2^32. -/
def rotl32 (x s : Nat) : Nat := m32 (x * 2 ^ s) ||| x / 2 ^ (32 - s)

/-- 32-bit bitwise complement. -/
def not32 (x : Nat) : Nat := x ^^^ 4294967295

/-- Bytes to 32-bit words, little-endian (MD5). -/
def wordsLE : Bytes → List Nat
  | b0 :: b1 :: b2 :: b3 :: rest => (b0 + b1 * 256 + b2 * 65536 + b3 * 16777216) :: wordsLE rest
  | _ => []

/-- Bytes to 32-bit words, big-endian (SHA family). -/
def wordsBE : Bytes → List Nat
  | b0 :: b1 :: b2 :: b3 :: rest => (b0 * 16777216 + b1 * 65536 + b2 * 256 + b3) :: wordsBE rest
  | _ => []

/-- A value as `k` bytes, little-endian. -/
def natBytesLE : Nat → Nat → Bytes
  | 0, _ => []
  | k + 1, v => v % 256 :: natBytesLE k (v / 256)

/-- A value as `k` bytes, big-endian. -/
def natBytesBE : Nat → Nat → Bytes
  | 0, _ => []
  | k + 1, v => natBytesBE k (v / 256) ++ [v % 256]

/-- Merkle-Damgard padding: 0x80, zeros to 56 mod 64, then the bit length
as 8 bytes (little-endian for MD5, big-endian for SHA). -/
def mdPad (le : Bool) (msg : Bytes) : Bytes :=
  let len := msg.length
  let padLen := (55 + 64 - len % 64) % 64 + 1
  msg ++ (128 :: List.replicate (padLen - 1) 0) ++
    (if le then natBytesLE 8 (8 * len % 18446744073709551616)
     else natBytesBE 8 (8 * len % 18446744073709551616))

/-- Structural worker for `blocks16`: the fuel bounds the number of
chunks, so the definition reduces inside the kernel. -/
def blocks16Aux : Nat → List Nat → List (List Nat)
  | 0, _ => []
  | fuel + 1, l => if l = [] then [] else l.take 16 :: blocks16Aux fuel (l.drop 16)

/-- Split a byte or word list into 16-element chunks. -/
def blocks16 (ws : List Nat) : List (List Nat) := blocks16Aux ws.length ws

/-- One MD5 step function selection per round (RFC 1321). -/
def md5F (i b c d : Nat) : Nat :=
  if i < 16 then (b &&& c) ||| (not32 b &&& d)
  else if i < 32 then (d &&& b) ||| (not32 d &&& c)
  else if i < 48 then b ^^^ c ^^^ d
  else c ^^^ (b ||| not32 d)

/-- Message-word index per MD5 step (RFC 1321). -/
def md5G (i : Nat) : Nat :=
  if i < 16 then i
  else if i < 32 then (5 * i + 1) % 16
  else if i < 48 then (3 * i + 5) % 16
  else (7 * i) % 16

/-- The 64 MD5 steps over one block. -/
def md5Steps (w : List Nat) : Nat → Nat × Nat × Nat × Nat → Nat × Nat × Nat × Nat
  | 0, st => st
  | n + 1, (a, b, c, d) =>
    let i := 64 - (n + 1)
    let f := add32 (add32 (add32 a (md5F i b c d)) (add32 (md5K.getD i 0) (w.getD (md5G i) 0))) 0
    let a' := add32 b (rotl32 f (md5S.getD i 0))
    md5Steps w n (d, a', b, c)

/-- MD5 compression of one 16-word block into the running state. -/
def md5Compress (st : Nat × Nat × Nat × Nat) (w : List Nat) : Nat × Nat × Nat × Nat :=
  let (a, b, c, d) := md5Steps w 64 st
  (add32 st.1 a, add32 st.2.1 b, add32 st.2.2.1 c, add32 st.2.2.2 d)

/-- MD5 digest (16 raw bytes).  Modelled from the spec: the source calls
`hashlib.md5`, which is not part of the repository; this is the RFC 1321
algorithm it implements. -/
def md5 (msg : Bytes) : Bytes :=
  let st := (blocks16 (wordsLE (mdPad true msg))).foldl md5Compress
    (1732584193, 4023233417, 2562383102, 271733878)
  natBytesLE 4 st.1 ++ natBytesLE 4 st.2.1 ++ natBytesLE 4 st.2.2.1 ++ natBytesLE 4 st.2.2.2


/-- 32-bit right rotation of a word already < 2^32. -/
def rotr32 (x s : Nat) : Nat := x / 2 ^ s ||| m32 (x * 2 ^ (32 - s))

/-- SHA-1 message-schedule expansion to 80 words (FIPS 180-4). -/
def sha1Expand : Nat → List Nat → List Nat
  | 0, ws => ws
  | n + 1, ws =>
    let i := ws.length
    sha1Expand n (ws ++ [rotl32 (ws.getD (i - 3) 0 ^^^ ws.getD (i - 8) 0 ^^^
      ws.getD (i - 14) 0 ^^^ ws.getD (i - 16) 0) 1])

/-- SHA-1 round function per 20-step group. -/
def sha1F (i b c d : Nat) : Nat :=
  if i < 20 then (b &&& c) ||| (not32 b &&& d)
  else if i < 40 then b ^^^ c ^^^ d
  else if i < 60 then (b &&& c) ||| (b &&& d) ||| (c &&& d)
  else b ^^^ c ^^^ d

/-- SHA-1 round constant per 20-step group. -/
def sha1KC (i : Nat) : Nat :=
  if i < 20 then 1518500249
  else if i < 40 then 1859775393
  else if i < 60 then 2400959708
  else 3395469782

/-- The 80 SHA-1 steps over one block's expanded schedule. -/
def sha1Steps (w : List Nat) : Nat → Nat × Nat × Nat × Nat × Nat → Nat × Nat × Nat × Nat × Nat
  | 0, st => st
  | n + 1, (a, b, c, d, e) =>
    let i := 80 - (n + 1)
    let t := add32 (add32 (rotl32 a 5) (sha1F i b c d)) (add32 e (add32 (sha1KC i) (w.getD i 0)))
    sha1Steps w n (t, a, rotl32 b 30, c, d)

/-- SHA-1 compression of one 16-word block into the running state. -/
def sha1Compress (st : Nat × Nat × Nat × Nat × Nat) (w : List Nat) : Nat × Nat × Nat × Nat × Nat :=
  let (a, b, c, d, e) := sha1Steps (sha1Expand 64 w) 80 st
  (add32 st.1 a, add32 st.2.1 b, add32 st.2.2.1 c, add32 st.2.2.2.1 d, add32 st.2.2.2.2 e)

/-- SHA-1 digest (20 raw bytes).  Modelled from the spec: the source calls
`hashlib.sha1`, which is not part of the repository; this is the FIPS
180-4 algorithm it implements. -/
def sha1 (msg : Bytes) : Bytes :=
  let st := (blocks16 (wordsBE (mdPad false msg))).foldl sha1Compress
    (1732584193, 4023233417, 2562383102, 271733878, 3285377520)
  natBytesBE 4 st.1 ++ natBytesBE 4 st.2.1 ++ natBytesBE 4 st.2.2.1 ++
    natBytesBE 4 st.2.2.2.1 ++ natBytesBE 4 st.2.2.2.2

/-- SHA-256 small sigma functions. -/
def sha256s0 (x : Nat) : Nat := rotr32 x 7 ^^^ rotr32 x 18 ^^^ x / 8

/-- SHA-256 small sigma 1. -/
def sha256s1 (x : Nat) : Nat := rotr32 x 17 ^^^ rotr32 x 19 ^^^ x / 1024

/-- SHA-256 message-schedule expansion to 64 words. -/
def sha256Expand : Nat → List Nat → List Nat
  | 0, ws => ws
  | n + 1, ws =>
    let i := ws.length
    sha256Expand n (ws ++ [add32 (add32 (ws.getD (i - 16) 0) (sha256s0 (ws.getD (i - 15) 0)))
      (add32 (ws.getD (i - 7) 0) (sha256s1 (ws.getD (i - 2) 0)))])

/-- The 64 SHA-256 steps over one block's expanded schedule. -/
def sha256Steps (w : List Nat) :
    Nat → Nat × Nat × Nat × Nat × Nat × Nat × Nat × Nat →
      Nat × Nat × Nat × Nat × Nat × Nat × Nat × Nat
  | 0, st => st
  | n + 1, (a, b, c, d, e, f, g, h) =>
    let i := 64 - (n + 1)
    let bigS1 := rotr32 e 6 ^^^ rotr32 e 11 ^^^ rotr32 e 25
    let ch := (e &&& f) ^^^ (not32 e &&& g)
    let t1 := add32 (add32 h (add32 bigS1 ch)) (add32 (sha256K.getD i 0) (w.getD i 0))
    let bigS0 := rotr32 a 2 ^^^ rotr32 a 13 ^^^ rotr32 a 22
    let maj := (a &&& b) ^^^ (a &&& c) ^^^ (b &&& c)
    let t2 := add32 bigS0 maj
    sha256Steps w n (add32 t1 t2, a, b, c, add32 d t1, e, f, g)

/-- SHA-256 compression of one 16-word block into the running state. -/
def sha256Compress (st : Nat × Nat × Nat × Nat × Nat × Nat × Nat × Nat) (w : List Nat) :
    Nat × Nat × Nat × Nat × Nat × Nat × Nat × Nat :=
  let (a, b, c, d, e, f, g, h) := sha256Steps (sha256Expand 48 w) 64 st
  (add32 st.1 a, add32 st.2.1 b, add32 st.2.2.1 c, add32 st.2.2.2.1 d,
   add32 st.2.2.2.2.1 e, add32 st.2.2.2.2.2.1 f, add32 st.2.2.2.2.2.2.1 g,
   add32 st.2.2.2.2.2.2.2 h)

/-- SHA-256 digest (32 raw bytes).  Modelled from the spec: the source
calls `hashlib.sha256`, which is not part of the repository; this is the
FIPS 180-4 algorithm it implements. -/
def sha256 (msg : Bytes) : Bytes :=
  let st := (blocks16 (wordsBE (mdPad false msg))).foldl sha256Compress
    (1779033703, 3144134277, 1013904242, 2773480762,
     1359893119, 2600822924, 528734635, 1541459225)
  natBytesBE 4 st.1 ++ natBytesBE 4 st.2.1 ++ natBytesBE 4 st.2.2.1 ++
    natBytesBE 4 st.2.2.2.1 ++ natBytesBE 4 st.2.2.2.2.1 ++ natBytesBE 4 st.2.2.2.2.2.1 ++
    natBytesBE 4 st.2.2.2.2.2.2.1 ++ natBytesBE 4 st.2.2.2.2.2.2.2

/-- MD5Node.process (src/nodes/hash_nodes.py lines 21-31), with the data
input-port buffer already resolved: an empty input yields an empty
output; otherwise the digest, ASCII-hex when the format parameter is
'Hex', raw digest bytes otherwise. -/
def MD5Node.process (format : String) (data : Bytes) : Bytes :=
  if data = [] then []
  else if format = "Hex" then asciiBytes (bytesHex (md5 data)) else md5 data

/-- SHA1Node.process (src/nodes/hash_nodes.py lines 47-57). -/
def SHA1Node.process (format : String) (data : Bytes) : Bytes :=
  if data = [] then []
  else if format = "Hex" then asciiBytes (bytesHex (sha1 data)) else sha1 data

/-- SHA256Node.process (src/nodes/hash_nodes.py lines 73-83). -/
def SHA256Node.process (format : String) (data : Bytes) : Bytes :=
  if data = [] then []
  else if format = "Hex" then asciiBytes (bytesHex (sha256 data)) else sha256 data

/-- The AES S-box of FIPS 197. -/
def sboxTable : List Nat :=
  [99, 124, 119, 123, 242, 107, 111, 197, 48, 1, 103, 43, 254, 215, 171, 118,
   202, 130, 201, 125, 250, 89, 71, 240, 173, 212, 162, 175, 156, 164, 114, 192,
   183, 253, 147, 38, 54, 63, 247, 204, 52, 165, 229, 241, 113, 216, 49, 21,
   4, 199, 35, 195, 24, 150, 5, 154, 7, 18, 128, 226, 235, 39, 178, 117,
   9, 131, 44, 26, 27, 110, 90, 160, 82, 59, 214, 179, 41, 227, 47, 132,
   83, 209, 0, 237, 32, 252, 177, 91, 106, 203, 190, 57, 74, 76, 88, 207,
   208, 239, 170, 251, 67, 77, 51, 133, 69, 249, 2, 127, 80, 60, 159, 168,
   81, 163, 64, 143, 146, 157, 56, 245, 188, 182, 218, 33, 16, 255, 243, 210,
   205, 12, 19, 236, 95, 151, 68, 23, 196, 167, 126, 61, 100, 93, 25, 115,
   96, 129, 79, 220, 34, 42, 144, 136, 70, 238, 184, 20, 222, 94, 11, 219,
   224, 50, 58, 10, 73, 6, 36, 92, 194, 211, 172, 98, 145, 149, 228, 121,
   231, 200, 55, 109, 141, 213, 78, 169, 108, 86, 244, 234, 101, 122, 174, 8,
   186, 120, 37, 46, 28, 166, 180, 198, 232, 221, 116, 31, 75, 189, 139, 138,
   112, 62, 181, 102, 72, 3, 246, 14, 97, 53, 87, 185, 134, 193, 29, 158,
   225, 248, 152, 17, 105, 217, 142, 148, 155, 30, 135, 233, 206, 85, 40, 223,
   140, 161, 137, 13, 191, 230, 66, 104, 65, 153, 45, 15, 176, 84, 187, 22]

/-- The inverse AES S-box of FIPS 197. -/
def invSboxTable : List Nat :=
  [82, 9, 106, 213, 48, 54, 165, 56, 191, 64, 163, 158, 129, 243, 215, 251,
   124, 227, 57, 130, 155, 47, 255, 135, 52, 142, 67, 68, 196, 222, 233, 203,
   84, 123, 148, 50, 166, 194, 35, 61, 238, 76, 149, 11, 66, 250, 195, 78,
   8, 46, 161, 102, 40, 217, 36, 178, 118, 91, 162, 73, 109, 139, 209, 37,
   114, 248, 246, 100, 134, 104, 152, 22, 212, 164, 92, 204, 93, 101, 182, 146,
   108, 112, 72, 80, 253, 237, 185, 218, 94, 21, 70, 87, 167, 141, 157, 132,
   144, 216, 171, 0, 140, 188, 211, 10, 247, 228, 88, 5, 184, 179, 69, 6,
   208, 44, 30, 143, 202, 63, 15, 2, 193, 175, 189, 3, 1, 19, 138, 107,
   58, 145, 17, 65, 79, 103, 220, 234, 151, 242, 207, 206, 240, 180, 230, 115,
   150, 172, 116, 34, 231, 173, 53, 133, 226, 249, 55, 232, 28, 117, 223, 110,
   71, 241, 26, 113, 29, 41, 197, 137, 111, 183, 98, 14, 170, 24, 190, 27,
   252, 86, 62, 75, 198, 210, 121, 32, 154, 219, 192, 254, 120, 205, 90, 244,
   31, 221, 168, 51, 136, 7, 199, 49, 177, 18, 16, 89, 39, 128, 236, 95,
   96, 81, 127, 169, 25, 181, 74, 13, 45, 229, 122, 159, 147, 201, 156, 239,
   160, 224, 59, 77, 174, 42, 245, 176, 200, 235, 187, 60, 131, 83, 153, 97,
   23, 43, 4, 126, 186, 119, 214, 38, 225, 105, 20, 99, 85, 33, 12, 125]

/-- S-box lookup. -/
def sbox (x : Nat) : Nat := sboxTable.getD x 0

/-- Inverse S-box lookup. -/
def invSbox (x : Nat) : Nat := invSboxTable.getD x 0

/-- Multiplication by x in GF(2^8) modulo the AES polynomial 0x11B. -/
def xtime (x : Nat) : Nat := if x < 128 then x * 2 else x * 2 ^^^ 283

/-- Russian-peasant GF(2^8) multiplication loop over 8 bits of `b`. -/
def gfMulAux : Nat → Nat → Nat → Nat → Nat
  | 0, _, _, acc => acc
  | n + 1, a, b, acc => gfMulAux n (xtime a) (b / 2) (if b % 2 = 1 then acc ^^^ a else acc)

/-- GF(2^8) multiplication with the AES reduction polynomial. -/
def gfMul (a b : Nat) : Nat := gfMulAux 8 a b 0

/-- One AES state: 16 bytes in the column-major order of FIPS 197 (byte
`4c + r` is row `r`, column `c`). -/
structure AESBlock where
  b0 : Nat
  b1 : Nat
  b2 : Nat
  b3 : Nat
  b4 : Nat
  b5 : Nat
  b6 : Nat
  b7 : Nat
  b8 : Nat
  b9 : Nat
  b10 : Nat
  b11 : Nat
  b12 : Nat
  b13 : Nat
  b14 : Nat
  b15 : Nat
deriving DecidableEq

/-- All sixteen state bytes are < 256. -/
def AESBlock.Valid (s : AESBlock) : Prop :=
  s.b0 < 256 ∧ s.b1 < 256 ∧ s.b2 < 256 ∧ s.b3 < 256 ∧ s.b4 < 256 ∧ s.b5 < 256 ∧
  s.b6 < 256 ∧ s.b7 < 256 ∧ s.b8 < 256 ∧ s.b9 < 256 ∧ s.b10 < 256 ∧ s.b11 < 256 ∧
  s.b12 < 256 ∧ s.b13 < 256 ∧ s.b14 < 256 ∧ s.b15 < 256

/-- SubBytes. -/
def subBytes (s : AESBlock) : AESBlock :=
  ⟨sbox s.b0, sbox s.b1, sbox s.b2, sbox s.b3, sbox s.b4, sbox s.b5, sbox s.b6, sbox s.b7,
   sbox s.b8, sbox s.b9, sbox s.b10, sbox s.b11, sbox s.b12, sbox s.b13, sbox s.b14, sbox s.b15⟩

/-- InvSubBytes. -/
def invSubBytes (s : AESBlock) : AESBlock :=
  ⟨invSbox s.b0, invSbox s.b1, invSbox s.b2, invSbox s.b3, invSbox s.b4, invSbox s.b5,
   invSbox s.b6, invSbox s.b7, invSbox s.b8, invSbox s.b9, invSbox s.b10, invSbox s.b11,
   invSbox s.b12, invSbox s.b13, invSbox s.b14, invSbox s.b15⟩

/-- ShiftRows: row r rotates left by r. -/
def shiftRows (s : AESBlock) : AESBlock :=
  ⟨s.b0, s.b5, s.b10, s.b15, s.b4, s.b9, s.b14, s.b3,
   s.b8, s.b13, s.b2, s.b7, s.b12, s.b1, s.b6, s.b11⟩

/-- InvShiftRows: row r rotates right by r. -/
def invShiftRows (s : AESBlock) : AESBlock :=
  ⟨s.b0, s.b13, s.b10, s.b7, s.b4, s.b1, s.b14, s.b11,
   s.b8, s.b5, s.b2, s.b15, s.b12, s.b9, s.b6, s.b3⟩

/-- AddRoundKey. -/
def addRoundKey (k s : AESBlock) : AESBlock :=
  ⟨k.b0 ^^^ s.b0, k.b1 ^^^ s.b1, k.b2 ^^^ s.b2, k.b3 ^^^ s.b3,
   k.b4 ^^^ s.b4, k.b5 ^^^ s.b5, k.b6 ^^^ s.b6, k.b7 ^^^ s.b7,
   k.b8 ^^^ s.b8, k.b9 ^^^ s.b9, k.b10 ^^^ s.b10, k.b11 ^^^ s.b11,
   k.b12 ^^^ s.b12, k.b13 ^^^ s.b13, k.b14 ^^^ s.b14, k.b15 ^^^ s.b15⟩

/-- MixColumns output byte 0 of a column. -/
def mixc0 (a b c d : Nat) : Nat := gfMul 2 a ^^^ gfMul 3 b ^^^ c ^^^ d

/-- MixColumns output byte 1 of a column. -/
def mixc1 (a b c d : Nat) : Nat := a ^^^ gfMul 2 b ^^^ gfMul 3 c ^^^ d

/-- MixColumns output byte 2 of a column. -/
def mixc2 (a b c d : Nat) : Nat := a ^^^ b ^^^ gfMul 2 c ^^^ gfMul 3 d

/-- MixColumns output byte 3 of a column. -/
def mixc3 (a b c d : Nat) : Nat := gfMul 3 a ^^^ b ^^^ c ^^^ gfMul 2 d

/-- InvMixColumns output byte 0 of a column. -/
def invc0 (a b c d : Nat) : Nat := gfMul 14 a ^^^ gfMul 11 b ^^^ gfMul 13 c ^^^ gfMul 9 d

/-- InvMixColumns output byte 1 of a column. -/
def invc1 (a b c d : Nat) : Nat := gfMul 9 a ^^^ gfMul 14 b ^^^ gfMul 11 c ^^^ gfMul 13 d

/-- InvMixColumns output byte 2 of a column. -/
def invc2 (a b c d : Nat) : Nat := gfMul 13 a ^^^ gfMul 9 b ^^^ gfMul 14 c ^^^ gfMul 11 d

/-- InvMixColumns output byte 3 of a column. -/
def invc3 (a b c d : Nat) : Nat := gfMul 11 a ^^^ gfMul 13 b ^^^ gfMul 9 c ^^^ gfMul 14 d

/-- MixColumns over the four columns. -/
def mixColumns (s : AESBlock) : AESBlock :=
  ⟨mixc0 s.b0 s.b1 s.b2 s.b3, mixc1 s.b0 s.b1 s.b2 s.b3,
   mixc2 s.b0 s.b1 s.b2 s.b3, mixc3 s.b0 s.b1 s.b2 s.b3,
   mixc0 s.b4 s.b5 s.b6 s.b7, mixc1 s.b4 s.b5 s.b6 s.b7,
   mixc2 s.b4 s.b5 s.b6 s.b7, mixc3 s.b4 s.b5 s.b6 s.b7,
   mixc0 s.b8 s.b9 s.b10 s.b11, mixc1 s.b8 s.b9 s.b10 s.b11,
   mixc2 s.b8 s.b9 s.b10 s.b11, mixc3 s.b8 s.b9 s.b10 s.b11,
   mixc0 s.b12 s.b13 s.b14 s.b15, mixc1 s.b12 s.b13 s.b14 s.b15,
   mixc2 s.b12 s.b13 s.b14 s.b15, mixc3 s.b12 s.b13 s.b14 s.b15⟩

/-- InvMixColumns over the four columns. -/
def invMixColumns (s : AESBlock) : AESBlock :=
  ⟨invc0 s.b0 s.b1 s.b2 s.b3, invc1 s.b0 s.b1 s.b2 s.b3,
   invc2 s.b0 s.b1 s.b2 s.b3, invc3 s.b0 s.b1 s.b2 s.b3,
   invc0 s.b4 s.b5 s.b6 s.b7, invc1 s.b4 s.b5 s.b6 s.b7,
   invc2 s.b4 s.b5 s.b6 s.b7, invc3 s.b4 s.b5 s.b6 s.b7,
   invc0 s.b8 s.b9 s.b10 s.b11, invc1 s.b8 s.b9 s.b10 s.b11,
   invc2 s.b8 s.b9 s.b10 s.b11, invc3 s.b8 s.b9 s.b10 s.b11,
   invc0 s.b12 s.b13 s.b14 s.b15, invc1 s.b12 s.b13 s.b14 s.b15,
   invc2 s.b12 s.b13 s.b14 s.b15, invc3 s.b12 s.b13 s.b14 s.b15⟩

/-- SubWord of the key schedule. -/
def subWord (w : List Nat) : List Nat := w.map sbox

/-- RotWord of the key schedule. -/
def rotWord : List Nat → List Nat
  | a :: rest => rest ++ [a]
  | [] => []

/-- The AES round-constant bytes. -/
def rconTable : List Nat := [1, 2, 4, 8, 16, 32, 64, 128, 27, 54]

/-- Pointwise XOR of two equal-length byte lists. -/
def zipXor (a b : List Nat) : List Nat := List.zipWith (fun x y => x ^^^ y) a b

/-- Bytes grouped into 4-byte words. -/
def chunksOf4 : Bytes → List (List Nat)
  | b0 :: b1 :: b2 :: b3 :: rest => [b0, b1, b2, b3] :: chunksOf4 rest
  | _ => []

/-- One pass of the FIPS 197 key expansion, appending `n` further words. -/
def expandAux (nk : Nat) : Nat → List (List Nat) → List (List Nat)
  | 0, ws => ws
  | n + 1, ws =>
    let i := ws.length
    let prev := ws.getLast?.getD []
    let back := ws.getD (i - nk) []
    let t :=
      if i % nk = 0 then
        zipXor back (match subWord (rotWord prev) with
          | x :: rest => (x ^^^ rconTable.getD (i / nk - 1) 0) :: rest
          | [] => [])
      else if 6 < nk ∧ i % nk = 4 then zipXor back (subWord prev)
      else zipXor back prev
    expandAux nk n (ws ++ [t])

/-- Four consecutive schedule words as one round-key block (word `c` is
column `c`). -/
def blockOfWords (ws : List (List Nat)) : AESBlock :=
  let w := fun c r => (ws.getD c []).getD r 0
  ⟨w 0 0, w 0 1, w 0 2, w 0 3, w 1 0, w 1 1, w 1 2, w 1 3,
   w 2 0, w 2 1, w 2 2, w 2 3, w 3 0, w 3 1, w 3 2, w 3 3⟩

/-- Schedule words grouped four at a time. -/
def groups4 : List (List Nat) → List (List (List Nat))
  | w0 :: w1 :: w2 :: w3 :: rest => [w0, w1, w2, w3] :: groups4 rest
  | _ => []

/-- The Nr+1 round keys expanded from a 16/24/32-byte key (FIPS 197). -/
def roundKeysOf (key : Bytes) : List AESBlock :=
  let nk := key.length / 4
  let nr := nk + 6
  let ws := expandAux nk (4 * (nr + 1) - nk) (chunksOf4 key)
  (groups4 ws).map blockOfWords

/-- The Nr-1 middle rounds then the final round of the AES cipher, taking
the round keys from round 1 on. -/
def encRounds : List AESBlock → AESBlock → AESBlock
  | [], s => s
  | [k], s => addRoundKey k (shiftRows (subBytes s))
  | k :: rest, s => encRounds rest (addRoundKey k (mixColumns (shiftRows (subBytes s))))

/-- The AES block cipher (FIPS 197).  Modelled from the spec: the source
calls PyCryptodome's `Crypto.Cipher.AES`, which is not part of the
repository; this is the cipher it implements. -/
def encryptBlock (rks : List AESBlock) (s : AESBlock) : AESBlock :=
  match rks with
  | [] => s
  | k0 :: rest => encRounds rest (addRoundKey k0 s)

/-- The exact inverse of `encRounds`. -/
def decRounds : List AESBlock → AESBlock → AESBlock
  | [], t => t
  | [k], t => invSubBytes (invShiftRows (addRoundKey k t))
  | k :: rest, t => invSubBytes (invShiftRows (invMixColumns (addRoundKey k (decRounds rest t))))

/-- The AES inverse cipher (FIPS 197), functionally what PyCryptodome's
decrypt computes. -/
def decryptBlock (rks : List AESBlock) (t : AESBlock) : AESBlock :=
  match rks with
  | [] => t
  | k0 :: rest => addRoundKey k0 (decRounds rest t)

/-- First sixteen bytes of a list as a state block. -/
def listToBlock (l : Bytes) : AESBlock :=
  ⟨l.getD 0 0, l.getD 1 0, l.getD 2 0, l.getD 3 0, l.getD 4 0, l.getD 5 0, l.getD 6 0,
   l.getD 7 0, l.getD 8 0, l.getD 9 0, l.getD 10 0, l.getD 11 0, l.getD 12 0, l.getD 13 0,
   l.getD 14 0, l.getD 15 0⟩

/-- A state block as its sixteen bytes. -/
def blockToList (s : AESBlock) : Bytes :=
  [s.b0, s.b1, s.b2, s.b3, s.b4, s.b5, s.b6, s.b7,
   s.b8, s.b9, s.b10, s.b11, s.b12, s.b13, s.b14, s.b15]

/-- Encrypt one 16-byte chunk. -/
def encBytes (rks : List AESBlock) (b : Bytes) : Bytes := blockToList (encryptBlock rks (listToBlock b))

/-- Decrypt one 16-byte chunk. -/
def decBytes (rks : List AESBlock) (b : Bytes) : Bytes := blockToList (decryptBlock rks (listToBlock b))


/-- PKCS#7 padding to the 16-byte AES block size
(`Crypto.Util.Padding.pad`, the library's default style). -/
def pkcs7pad (d : Bytes) : Bytes :=
  let n := 16 - d.length % 16
  d ++ List.replicate n n

/-- PKCS#7 unpadding; `none` models the `ValueError` raised on invalid
padding (`Crypto.Util.Padding.unpad`). -/
def pkcs7unpad (l : Bytes) : Option Bytes :=
  if l.length = 0 then none
  else
    let n := l.getD (l.length - 1) 0
    if 1 ≤ n ∧ n ≤ 16 ∧ n ≤ l.length ∧ l.drop (l.length - n) = List.replicate n n then
      some (l.take (l.length - n))
    else none

/-- ECB encryption of padded data. -/
def ecbEncrypt (rks : List AESBlock) (data : Bytes) : Bytes :=
  ((blocks16 (pkcs7pad data)).map (encBytes rks)).flatten

/-- ECB decryption of a block-aligned ciphertext, before unpadding. -/
def ecbDecryptRaw (rks : List AESBlock) (data : Bytes) : Bytes :=
  ((blocks16 data).map (decBytes rks)).flatten

/-- CBC chaining over plaintext blocks. -/
def cbcEnc (rks : List AESBlock) (prev : Bytes) : List Bytes → List Bytes
  | [] => []
  | p :: ps =>
    let c := encBytes rks (zipXor prev p)
    c :: cbcEnc rks c ps

/-- CBC unchaining over ciphertext blocks. -/
def cbcDec (rks : List AESBlock) (prev : Bytes) : List Bytes → List Bytes
  | [] => []
  | c :: cs => zipXor prev (decBytes rks c) :: cbcDec rks c cs

/-- CBC encryption of padded data. -/
def cbcEncrypt (rks : List AESBlock) (iv data : Bytes) : Bytes :=
  (cbcEnc rks iv (blocks16 (pkcs7pad data))).flatten

/-- CBC decryption of a block-aligned ciphertext, before unpadding. -/
def cbcDecryptRaw (rks : List AESBlock) (iv data : Bytes) : Bytes :=
  (cbcDec rks iv (blocks16 data)).flatten

/-- Big-endian value of a byte list. -/
def bytesToNatBE (l : Bytes) : Nat := l.foldl (fun acc b => acc * 256 + b) 0

/-- CTR keystream XOR.  Modelled from the spec: "CTR treats the 16-byte IV
as a big-endian initial counter value; encrypt and decrypt are the same
operation" (`Counter.new(128, initial_value = iv)` in the source).  The
counter is modelled modulo 2^128; PyCryptodome would instead raise
`OverflowError` at a wraparound, a corner no theorem below relies on. -/
def ctrKS (rks : List AESBlock) (ivInt n : Nat) : Bytes :=
  ((List.range n).map
    (fun j => encBytes rks (natBytesBE 16 ((ivInt + j) % 340282366920938463463374607431768211456)))).flatten

/-- CTR mode: XOR the data against the keystream of as many counter
blocks as the data needs. -/
def ctrCrypt (rks : List AESBlock) (iv data : Bytes) : Bytes :=
  zipXor data (ctrKS rks (bytesToNatBE iv) ((data.length + 15) / 16))

/-- Python `key.ljust(16, b'\x00')[:16]`. -/
def lj16 (l : Bytes) : Bytes := (l ++ List.replicate (16 - l.length) 0).take 16

/-- Whether `pat` starts the list. -/
def listStartsWith : List Char → List Char → Bool
  | [], _ => true
  | _ :: _, [] => false
  | p :: ps, c :: cs => p == c && listStartsWith ps cs

/-- Whether `pat` occurs in the list (Python `pat in s`). -/
def hasSub (pat : List Char) : List Char → Bool
  | [] => pat.isEmpty
  | c :: rest => if listStartsWith pat (c :: rest) then true else hasSub pat rest

/-- Python `pat in s` on strings. -/
def strContains (s pat : String) : Bool := hasSub pat.data s.data

/-- AESNode.process (src/nodes/crypto_nodes.py lines 138-207), with the
three input-port buffers already resolved.  Key and IV come from the
connected ports when non-empty, else from the hex parameters (falling
back to sixteen zero bytes on a hex `ValueError`); a key not of length
16/24/32 is zero-padded or truncated to 16; the IV is coerced to 16 bytes
in the CBC and CTR branches; encrypt modes pad with PKCS#7; decrypt modes
unpad, returning the decrypted bytes unchanged if unpadding fails; the
`ValueError` raised by decrypting a non-block-aligned buffer is caught by
the node's `except`, giving an empty output. -/
def AESNode.process (modeStr keyHexP ivHexP : String) (data keyPort ivPort : Bytes) : Bytes :=
  let key0 := resolveShadowed keyPort ((pyFromHex (removeChar ' ' keyHexP)).getD (List.replicate 16 0))
  let iv0 := resolveShadowed ivPort ((pyFromHex (removeChar ' ' ivHexP)).getD (List.replicate 16 0))
  if data = [] then []
  else
    let key := if key0.length = 16 ∨ key0.length = 24 ∨ key0.length = 32 then key0 else lj16 key0
    let rks := roundKeysOf key
    if strContains modeStr "ECB" then
      if strContains modeStr "Encrypt" then ecbEncrypt rks data
      else if data.length % 16 = 0 then
        let dec := ecbDecryptRaw rks data
        (pkcs7unpad dec).getD dec
      else []
    else if strContains modeStr "CTR" then
      let iv := if iv0.length = 16 then iv0 else lj16 iv0
      ctrCrypt rks iv data
    else
      let iv := if iv0.length = 16 then iv0 else lj16 iv0
      if strContains modeStr "Encrypt" then cbcEncrypt rks iv data
      else if data.length % 16 = 0 then
        let dec := cbcDecryptRaw rks iv data
        (pkcs7unpad dec).getD dec
      else []

/-- Swap two positions of the RC4 state. -/
def rc4Swap (s : List Nat) (i j : Nat) : List Nat :=
  (s.set i (s.getD j 0)).set j (s.getD i 0)

/-- RC4 key scheduling.  Modelled from the spec: the source calls
PyCryptodome's `Crypto.Cipher.ARC4`, which is not part of the repository;
this is the RC4 algorithm it implements. -/
def rc4Ksa (key : Bytes) : List Nat :=
  (((List.range 256).foldl
    (fun (p : List Nat × Nat) (i : Nat) =>
      let j := (p.2 + p.1.getD i 0 + key.getD (i % key.length) 0) % 256
      (rc4Swap p.1 i j, j))
    (List.range 256, 0))).1

/-- RC4 keystream generation XORed onto the data. -/
def rc4Encrypt (key data : Bytes) : Bytes :=
  (data.foldl
    (fun (st : List Nat × Nat × Nat × Bytes) (b : Nat) =>
      let s := st.1
      let i := (st.2.1 + 1) % 256
      let j := (st.2.2.1 + s.getD i 0) % 256
      let s' := rc4Swap s i j
      let k := s'.getD ((s'.getD i 0 + s'.getD j 0) % 256) 0
      (s', i, j, st.2.2.2 ++ [b ^^^ k]))
    (rc4Ksa key, 0, 0, [])).2.2.2

/-- Errors a Python call can raise, as observed by a caller. -/
inductive PyErr where
  | valueError
  | keyError (available : List String)
  | unicodeDecodeError
  | fuelExhausted
deriving DecidableEq

/-- RC4Node.process (src/nodes/crypto_nodes.py lines 98-115), with the
input-port buffers already resolved.  The guard returns an empty buffer
for empty data or an empty key, but the `ARC4.new(key)` call sits outside
any `try`: PyCryptodome rejects a key longer than 256 bytes with a
`ValueError` (recent versions also reject keys shorter than 5 bytes, a
corner no theorem below relies on), and that exception propagates. -/
def RC4Node.process (keyHexParam : String) (data keyPort : Bytes) : Except PyErr Bytes :=
  let key := resolveShadowed keyPort (keyHexOrZero keyHexParam)
  if data = [] ∨ key = [] then .ok []
  else if 256 < key.length then .error .valueError
  else .ok (rc4Encrypt key data)


/-- The catalog kinds this embedding covers: every kind a claim touches
(the remaining operators - Base64, URL, Hex, Atbash, Reverse, Substring,
Zlib, Gzip - play no part in any claim). -/
inductive NodeKind where
  | textInput
  | hexInput
  | fileInput
  | xorCipher
  | rc4
  | aes
  | md5Hash
  | sha1Hash
  | sha256Hash
  | rot
  | repeatData
  | takeBytes
  | output
deriving DecidableEq

/-- A node: unique id, catalog kind, display name, and its current
parameter values (string-typed, per the source's text/combo properties). -/
structure NodeData where
  id : Nat
  kind : NodeKind
  name : String
  params : List (String × String)
deriving DecidableEq

/-- A connection: (source node id, source port name) to (destination node
id, destination port name). -/
structure Conn where
  srcNode : Nat
  srcPort : String
  dstNode : Nat
  dstPort : String
deriving DecidableEq

/-- The graph: nodes plus connections. -/
structure Graph where
  nodes : List NodeData
  conns : List Conn
deriving DecidableEq

/-- The catalog-defined parameter defaults of each kind, from the
`add_text_input`/`add_combo_menu` calls in each node constructor (a combo
menu defaults to its first item). -/
def defaultParams : NodeKind → List (String × String)
  | .textInput => [("text_data", "Hello")]
  | .hexInput => [("hex_data", "48656c6c6f")]
  | .fileInput => [("file_path", "")]
  | .xorCipher => [("key_hex", "00")]
  | .rc4 => [("key_hex", "00")]
  | .aes => [("key_hex", "00000000000000000000000000000000"),
             ("iv_hex", "00000000000000000000000000000000"),
             ("mode", "CBC Encrypt")]
  | .md5Hash => [("format", "Hex")]
  | .sha1Hash => [("format", "Hex")]
  | .sha256Hash => [("format", "Hex")]
  | .rot => [("shift", "13")]
  | .repeatData => [("count", "2")]
  | .takeBytes => [("mode", "Start + Length"), ("start", ""), ("param2", "")]
  | .output => [("length", "0 bytes"), ("preview", "")]

/-- A node as instantiated from the catalog, with `set_property`
overrides applied in front of the defaults. -/
def mkNode (id : Nat) (kind : NodeKind) (name : String)
    (overrides : List (String × String)) : NodeData :=
  ⟨id, kind, name, overrides ++ defaultParams kind⟩

/-- `get_property`: the first binding of the parameter name. -/
def NodeData.getProp (n : NodeData) (key : String) : String :=
  ((n.params.find? (fun p => p.1 == key)).map Prod.snd).getD ""

/-- `set_property`: rebind a parameter in place. -/
def NodeData.setProp (n : NodeData) (key value : String) : NodeData :=
  { n with params := n.params.map (fun p => if p.1 == key then (p.1, value) else p) }

/-- The at-most-one connection feeding an input port
(`input_port.connected_ports()[0]`). -/
def findConnTo (g : Graph) (nid : Nat) (port : String) : Option Conn :=
  g.conns.find? (fun c => c.dstNode == nid && c.dstPort == port)

/-- A node by id. -/
def findNode (g : Graph) (nid : Nat) : Option NodeData :=
  g.nodes.find? (fun n => n.id == nid)

/-- `self._output_data.get(port_name, b'')`. -/
def lookupOut (port : String) (outs : List (String × Bytes)) : Bytes :=
  ((outs.find? (fun p => p.1 == port)).map Prod.snd).getD []

/-- One invocation of a node's `process`, given a resolver for its input
ports.  Returns the `_output_data` written by the node together with the
process-invocation trace of the resolution it triggered; an uncaught
Python exception is an `Except.error`.  Dispatch is by kind, mirroring
each `process` in src/nodes/ (the `gid` calls appear in the order of the
`get_input_data` calls in the source).  The file-input read is the one
operation not modelled: its success case depends on the file system, and
no claim touches it, so it resolves to the empty buffer (its no-path and
error cases). -/
def processBody (gid : String → Except PyErr (Bytes × List Nat)) (n : NodeData) :
    Except PyErr (List (String × Bytes) × List Nat) :=
  match n.kind with
  | .textInput => .ok ([("output", utf8Encode (n.getProp "text_data"))], [])
  | .hexInput =>
    .ok ([("output",
      (pyFromHex (removeChar '\n' (removeChar ' ' (n.getProp "hex_data")))).getD [])], [])
  | .fileInput => .ok ([("output", [])], [])
  | .xorCipher => do
    let (data, t1) ← gid "data"
    let (keyPort, t2) ← gid "key"
    .ok ([("output", XORNode.process (n.getProp "key_hex") data keyPort)], t1 ++ t2)
  | .rc4 => do
    let (data, t1) ← gid "data"
    let (keyPort, t2) ← gid "key"
    match RC4Node.process (n.getProp "key_hex") data keyPort with
    | .error e => .error e
    | .ok r => .ok ([("output", r)], t1 ++ t2)
  | .aes => do
    let (data, t1) ← gid "data"
    let (keyPort, t2) ← gid "key"
    let (ivPort, t3) ← gid "iv"
    .ok ([("output",
      AESNode.process (n.getProp "mode") (n.getProp "key_hex") (n.getProp "iv_hex")
        data keyPort ivPort)], t1 ++ t2 ++ t3)
  | .md5Hash => do
    let (data, t) ← gid "data"
    .ok ([("hash", MD5Node.process (n.getProp "format") data)], t)
  | .sha1Hash => do
    let (data, t) ← gid "data"
    .ok ([("hash", SHA1Node.process (n.getProp "format") data)], t)
  | .sha256Hash => do
    let (data, t) ← gid "data"
    .ok ([("hash", SHA256Node.process (n.getProp "format") data)], t)
  | .rot => do
    let (data, t) ← gid "data"
    .ok ([("output", ROTNode.process (n.getProp "shift") data)], t)
  | .repeatData => do
    let (data, t) ← gid "data"
    .ok ([("output", RepeatNode.process (n.getProp "count") data)], t)
  | .takeBytes => do
    let (data, t) ← gid "data"
    .ok ([("output",
      TakeBytesNode.process (n.getProp "mode") (n.getProp "start") (n.getProp "param2") data)], t)
  | .output => do
    let (data, t) ← gid "input"
    .ok ([("data", data)], t)

/-- ByteFlowNode.process / get_output_data / get_input_data
(src/nodes/base.py lines 15-43): pull-based, unmemoized resolution.  Each
call re-invokes the node's `process`; an input port with no connection
(or one whose source node is gone) resolves to the empty buffer;
otherwise the upstream node is resolved recursively.  The trace records
one entry per `process` invocation, the node's own first.  The fuel
argument bounds the recursion depth that Python leaves unbounded; running
out models only a graph cycle, which no claim exercises. -/
def ByteFlowNode.process : Nat → Graph → NodeData → Except PyErr (List (String × Bytes) × List Nat)
  | 0, _, _ => .error .fuelExhausted
  | fuel + 1, g, n =>
    (processBody
      (fun port =>
        match findConnTo g n.id port with
        | none => .ok ([], [])
        | some c =>
          match findNode g c.srcNode with
          | none => .ok ([], [])
          | some sn =>
            (ByteFlowNode.process fuel g sn).map (fun r => (lookupOut c.srcPort r.1, r.2)))
      n).map (fun r => (r.1, n.id :: r.2))

/-- ByteFlowNode.get_output_data (src/nodes/base.py lines 32-35): invoke
`process`, then read the port's entry of `_output_data`. -/
def ByteFlowNode.getOutputData (fuel : Nat) (g : Graph) (n : NodeData) (port : String) :
    Except PyErr (Bytes × List Nat) :=
  (ByteFlowNode.process fuel g n).map (fun r => (lookupOut port r.1, r.2))

/-- The sink-collection loop of Pipeline.execute (src/pipeline.py lines
193-198): process every OutputNode in node order, collecting name and
captured buffer; an exception anywhere aborts the whole run. -/
def executeSinks (fuel : Nat) (g : Graph) :
    List NodeData → Except PyErr (List (String × Bytes) × List Nat)
  | [] => .ok ([], [])
  | n :: ns =>
    if n.kind = .output then do
      let r ← ByteFlowNode.process fuel g n
      let rest ← executeSinks fuel g ns
      .ok ((n.name, lookupOut "data" r.1) :: rest.1, r.2 ++ rest.2)
    else executeSinks fuel g ns

/-- Keep the first occurrence of each name, as Python dict insertion
does. -/
def dedupFirst (l : List String) : List String :=
  l.foldl (fun acc x => if acc.contains x then acc else acc ++ [x]) []

/-- The input nodes of the graph, in node order
(Pipeline.get_input_nodes, src/pipeline.py lines 96-106). -/
def inputNodes (g : Graph) : List NodeData :=
  g.nodes.filter (fun n =>
    n.kind == .textInput || n.kind == .hexInput || n.kind == .fileInput)

/-- The available input-node names as listed by the KeyError of
set_input (dict keys: first-occurrence order, duplicates collapsed). -/
def inputNodeNames (g : Graph) : List String :=
  dedupFirst ((inputNodes g).map NodeData.name)

/-- Update a node in place by id. -/
def Graph.updateNode (g : Graph) (nid : Nat) (f : NodeData → NodeData) : Graph :=
  { g with nodes := g.nodes.map (fun n => if n.id == nid then f n else n) }

/-- Pipeline.set_input (src/pipeline.py lines 120-144): look the name up
among the input nodes (the dict maps a duplicated name to its last
node), raising a KeyError naming the available inputs when absent, then
set the property the node's kind dictates: decoded UTF-8 text for a
TextInput, `data.hex()` for a HexInput, a decoded path for a FileInput. -/
def Pipeline.setInput (g : Graph) (name : String) (data : Bytes) : Except PyErr Graph :=
  match ((inputNodes g).filter (fun n => n.name == name)).getLast? with
  | none => .error (.keyError (inputNodeNames g))
  | some node =>
    match node.kind with
    | .hexInput => .ok (g.updateNode node.id (fun n => n.setProp "hex_data" (bytesHex data)))
    | .textInput =>
      match utf8Decode data with
      | none => .error .unicodeDecodeError
      | some s => .ok (g.updateNode node.id (fun n => n.setProp "text_data" s))
    | _ =>
      match utf8Decode data with
      | none => .error .unicodeDecodeError
      | some s => .ok (g.updateNode node.id (fun n => n.setProp "file_path" s))

/-- Python `name.replace('_', ' ')`. -/
def underscoresToSpaces (s : String) : String :=
  String.mk (s.data.map (fun c => if c = '_' then ' ' else c))

/-- Pipeline.set_inputs (src/pipeline.py lines 146-162): each keyword
name has its underscores replaced by spaces, then is dispatched to
set_input. -/
def Pipeline.setInputs (g : Graph) : List (String × Bytes) → Except PyErr Graph
  | [] => .ok g
  | (name, data) :: rest => do
    let g' ← Pipeline.setInput g (underscoresToSpaces name) data
    Pipeline.setInputs g' rest

/-- The default-data step of Pipeline.execute (src/pipeline.py lines
186-191): set the decoded text on the first TextInput node, if any. -/
def setFirstTextInput (g : Graph) (s : String) : Graph :=
  match g.nodes.find? (fun n => n.kind == .textInput) with
  | none => g
  | some n => g.updateNode n.id (fun m => m.setProp "text_data" s)

/-- Pipeline.execute (src/pipeline.py lines 164-200): apply named inputs,
then the optional default data, then resolve every sink.  The result is
the name-to-buffer association list of the sinks together with the full
process-invocation trace. -/
def Pipeline.execute (fuel : Nat) (g : Graph) (dataOpt : Option Bytes)
    (named : List (String × Bytes)) : Except PyErr (List (String × Bytes) × List Nat) := do
  let g1 ← Pipeline.setInputs g named
  let g2 ← match dataOpt with
    | none => Except.ok g1
    | some d =>
      match utf8Decode d with
      | none => Except.error PyErr.unicodeDecodeError
      | some s => Except.ok (setFirstTextInput g1 s)
  executeSinks fuel g2 g2.nodes


/-- One node entry of a persisted graph document: id, catalog kind,
parameter values, and an editor-opaque position carried verbatim. -/
structure DocNode where
  id : Nat
  kind : String
  name : String
  params : List (String × String)
  pos : Int × Int
deriving DecidableEq

/-- One connection entry of a persisted graph document. -/
structure DocConn where
  srcNode : Nat
  srcPort : String
  dstNode : Nat
  dstPort : String
deriving DecidableEq

/-- A persisted graph document. -/
structure GraphDoc where
  nodes : List DocNode
  conns : List DocConn
deriving DecidableEq

/-- The catalog keyed by the registered kind identifiers
(`__identifier__` plus class name, as in `ALL_NODE_CLASSES`). -/
def parseKind (s : String) : Option NodeKind :=
  if s = "byteflow.io.TextInputNode" then some .textInput
  else if s = "byteflow.io.HexInputNode" then some .hexInput
  else if s = "byteflow.io.FileInputNode" then some .fileInput
  else if s = "byteflow.crypto.XORNode" then some .xorCipher
  else if s = "byteflow.crypto.RC4Node" then some .rc4
  else if s = "byteflow.crypto.AESNode" then some .aes
  else if s = "byteflow.hash.MD5Node" then some .md5Hash
  else if s = "byteflow.hash.SHA1Node" then some .sha1Hash
  else if s = "byteflow.hash.SHA256Node" then some .sha256Hash
  else if s = "byteflow.encoding.ROTNode" then some .rot
  else if s = "byteflow.util.RepeatNode" then some .repeatData
  else if s = "byteflow.util.TakeBytesNode" then some .takeBytes
  else if s = "byteflow.io.OutputNode" then some .output
  else none

/-- Structural errors of a load. -/
inductive LoadErr where
  | unknownKind (kind : String)
  | danglingEndpoint
deriving DecidableEq

/-- Reconstruct the node list of a document via the catalog; an
unrecognized kind is a fatal structural error. -/
def buildNodes : List DocNode → Except LoadErr (List NodeData)
  | [] => .ok []
  | dn :: rest =>
    match parseKind dn.kind with
    | none => .error (.unknownKind dn.kind)
    | some k => (buildNodes rest).map (fun ns => mkNode dn.id k dn.name dn.params :: ns)

/-- Whether a connection endpoint references a present node. -/
def endpointPresent (ns : List NodeData) (nid : Nat) : Bool :=
  ns.any (fun n => n.id == nid)

/-- Build a whole graph from a document, checking kinds then connection
endpoints. -/
def buildGraph (doc : GraphDoc) : Except LoadErr Graph := do
  let ns ← buildNodes doc.nodes
  if doc.conns.all (fun c => endpointPresent ns c.srcNode && endpointPresent ns c.dstNode) then
    .ok ⟨ns, doc.conns.map (fun c => ⟨c.srcNode, c.srcPort, c.dstNode, c.dstPort⟩)⟩
  else .error .danglingEndpoint

/-- Pipeline.load (src/pipeline.py lines 80-86).  Modelled from the spec:
the source delegates to NodeGraphQt's `load_session`, which is not part
of the repository; the spec fixes its contract - "Loading reconstructs
nodes via the catalog keyed by kind (an unrecognized kind is a fatal
structural error that aborts the load before any partial graph is
exposed)" and "the graph is left in its prior state".  The load therefore
returns the new graph on success, and the prior graph paired with the
structural error on failure. -/
def Pipeline.load (g : Graph) (doc : GraphDoc) : Graph × Option LoadErr :=
  match buildGraph doc with
  | .error e => (g, some e)
  | .ok g' => (g', none)

/-- The graph TextInput('A' * 257) to RC4.key, TextInput('hi') to
RC4.data, RC4 to Output: a wiring any editor action can produce, whose
execution reaches `ARC4.new` with a 257-byte key. -/
def rc4CrashGraph : Graph :=
  ⟨[mkNode 1 .textInput "KeySrc" [("text_data", String.mk (List.replicate 257 'A'))],
    mkNode 2 .textInput "DataSrc" [("text_data", "hi")],
    mkNode 3 .rc4 "RC4" [],
    mkNode 4 .output "Result" []],
   [⟨1, "output", 3, "key"⟩, ⟨2, "output", 3, "data"⟩, ⟨3, "output", 4, "input"⟩]⟩

/-- HexInput(upHex) optionally connected to XOR.key, TextInput(dataText)
to XOR.data, XOR(key_hex = keyHexParam) to Output "Result". -/
def xorShadowGraph (connected : Bool) (upHex keyHexParam dataText : String) : Graph :=
  ⟨[mkNode 1 .hexInput "KeyUp" [("hex_data", upHex)],
    mkNode 2 .textInput "Data" [("text_data", dataText)],
    mkNode 3 .xorCipher "XOR" [("key_hex", keyHexParam)],
    mkNode 4 .output "Result" []],
   (if connected then [⟨1, "output", 3, "key"⟩] else []) ++
     [⟨2, "output", 3, "data"⟩, ⟨3, "output", 4, "input"⟩]⟩

/-- One TextInput feeding two Output sinks. -/
def diamondGraph (t : String) : Graph :=
  ⟨[mkNode 1 .textInput "Input" [("text_data", t)],
    mkNode 2 .output "Out1" [],
    mkNode 3 .output "Out2" []],
   [⟨1, "output", 2, "input"⟩, ⟨1, "output", 3, "input"⟩]⟩

/-- A one-node prior graph for the load scenario. -/
def priorGraph : Graph := ⟨[mkNode 1 .textInput "Old" [("text_data", "kept")]], []⟩

/-- A document referencing a kind no catalog entry matches. -/
def unknownKindDoc : GraphDoc :=
  ⟨[⟨1, "byteflow.custom.MysteryNode", "Mystery", [], (0, 0)⟩], []⟩

/-! ## Theorems -/

theorem xor_mod_two (x y : Nat) : (x ^^^ y) % 2 = x % 2 ^^^ y % 2 := by
  have h := Nat.testBit_xor x y 0
  simp only [Nat.testBit_zero] at h
  rcases Nat.mod_two_eq_zero_or_one x with hx | hx <;>
    rcases Nat.mod_two_eq_zero_or_one y with hy | hy <;>
      rcases Nat.mod_two_eq_zero_or_one (x ^^^ y) with hxy | hxy <;>
        simp [hx, hy, hxy] at h ⊢

theorem xor_lcomm (x y z : Nat) : x ^^^ (y ^^^ z) = y ^^^ (x ^^^ z) := by
  rw [← Nat.xor_assoc, Nat.xor_comm x y, Nat.xor_assoc]

theorem gfMulAux_xor (n : Nat) :
    ∀ (a b1 b2 acc1 acc2 : Nat),
      gfMulAux n a (b1 ^^^ b2) (acc1 ^^^ acc2) = gfMulAux n a b1 acc1 ^^^ gfMulAux n a b2 acc2 := by
  induction n with
  | zero => intro a b1 b2 acc1 acc2; rfl
  | succ n ih =>
    intro a b1 b2 acc1 acc2
    have e1 : gfMulAux (n + 1) a b1 acc1
        = gfMulAux n (xtime a) (b1 / 2) (if b1 % 2 = 1 then acc1 ^^^ a else acc1) := rfl
    have e2 : gfMulAux (n + 1) a b2 acc2
        = gfMulAux n (xtime a) (b2 / 2) (if b2 % 2 = 1 then acc2 ^^^ a else acc2) := rfl
    have e3 : gfMulAux (n + 1) a (b1 ^^^ b2) (acc1 ^^^ acc2)
        = gfMulAux n (xtime a) ((b1 ^^^ b2) / 2)
            (if (b1 ^^^ b2) % 2 = 1 then (acc1 ^^^ acc2) ^^^ a else acc1 ^^^ acc2) := rfl
    rw [e1, e2, e3, Nat.xor_div_two, xor_mod_two]
    rcases Nat.mod_two_eq_zero_or_one b1 with h1 | h1 <;>
      rcases Nat.mod_two_eq_zero_or_one b2 with h2 | h2 <;> rw [h1, h2]
    · rw [if_neg (by decide), if_neg (by decide), if_neg (by decide)]
      exact ih _ _ _ _ _
    · rw [if_pos (by decide), if_neg (by decide), if_pos (by decide), Nat.xor_assoc]
      exact ih _ _ _ _ _
    · rw [if_pos (by decide), if_pos (by decide), if_neg (by decide),
        show (acc1 ^^^ acc2) ^^^ a = (acc1 ^^^ a) ^^^ acc2 from by
          simp [Nat.xor_assoc, Nat.xor_comm, xor_lcomm]]
      exact ih _ _ _ _ _
    · rw [if_neg (by decide), if_pos (by decide), if_pos (by decide),
        show acc1 ^^^ acc2 = (acc1 ^^^ a) ^^^ (acc2 ^^^ a) from by
          simp [Nat.xor_assoc, Nat.xor_comm, xor_lcomm, Nat.xor_cancel_left]]
      exact ih _ _ _ _ _

theorem gfMul_xor (a b1 b2 : Nat) : gfMul a (b1 ^^^ b2) = gfMul a b1 ^^^ gfMul a b2 := by
  have h := gfMulAux_xor 8 a b1 b2 0 0
  simpa [gfMul] using h

theorem gfid (x : Nat) (h : x < 256) :
    gfMul 14 (gfMul 2 x) ^^^ (gfMul 11 x ^^^ (gfMul 13 x ^^^ gfMul 9 (gfMul 3 x))) = x := by
  revert h
  revert x
  decide

theorem gfz1 (x : Nat) (h : x < 256) :
    gfMul 14 (gfMul 3 x) ^^^ (gfMul 11 (gfMul 2 x) ^^^ (gfMul 13 x ^^^ gfMul 9 x)) = 0 := by
  revert h
  revert x
  decide

theorem gfz2 (x : Nat) (h : x < 256) :
    gfMul 14 x ^^^ (gfMul 11 (gfMul 3 x) ^^^ (gfMul 13 (gfMul 2 x) ^^^ gfMul 9 x)) = 0 := by
  revert h
  revert x
  decide

theorem gfz3 (x : Nat) (h : x < 256) :
    gfMul 14 x ^^^ (gfMul 11 x ^^^ (gfMul 13 (gfMul 3 x) ^^^ gfMul 9 (gfMul 2 x))) = 0 := by
  revert h
  revert x
  decide

theorem invMixCol0 (a b c d : Nat) (ha : a < 256) (hb : b < 256) (hc : c < 256) (hd : d < 256) :
    invc0 (mixc0 a b c d) (mixc1 a b c d) (mixc2 a b c d) (mixc3 a b c d) = a := by
  have hmid : invc0 (mixc0 a b c d) (mixc1 a b c d) (mixc2 a b c d) (mixc3 a b c d) =
      (gfMul 14 (gfMul 2 a) ^^^ (gfMul 11 a ^^^ (gfMul 13 a ^^^ gfMul 9 (gfMul 3 a)))) ^^^
      ((gfMul 14 (gfMul 3 b) ^^^ (gfMul 11 (gfMul 2 b) ^^^ (gfMul 13 b ^^^ gfMul 9 b))) ^^^
      ((gfMul 14 c ^^^ (gfMul 11 (gfMul 3 c) ^^^ (gfMul 13 (gfMul 2 c) ^^^ gfMul 9 c))) ^^^
      (gfMul 14 d ^^^ (gfMul 11 d ^^^ (gfMul 13 (gfMul 3 d) ^^^ gfMul 9 (gfMul 2 d)))))) := by
    simp only [invc0, mixc0, mixc1, mixc2, mixc3, gfMul_xor]
    simp [Nat.xor_assoc, Nat.xor_comm, xor_lcomm]
  rw [hmid, gfid a ha, gfz1 b hb, gfz2 c hc, gfz3 d hd]
  simp

theorem invMixCol1 (a b c d : Nat) (ha : a < 256) (hb : b < 256) (hc : c < 256) (hd : d < 256) :
    invc1 (mixc0 a b c d) (mixc1 a b c d) (mixc2 a b c d) (mixc3 a b c d) = b := by
  have hmid : invc1 (mixc0 a b c d) (mixc1 a b c d) (mixc2 a b c d) (mixc3 a b c d) =
      (gfMul 14 a ^^^ (gfMul 11 a ^^^ (gfMul 13 (gfMul 3 a) ^^^ gfMul 9 (gfMul 2 a)))) ^^^
      ((gfMul 14 (gfMul 2 b) ^^^ (gfMul 11 b ^^^ (gfMul 13 b ^^^ gfMul 9 (gfMul 3 b)))) ^^^
      ((gfMul 14 (gfMul 3 c) ^^^ (gfMul 11 (gfMul 2 c) ^^^ (gfMul 13 c ^^^ gfMul 9 c))) ^^^
      (gfMul 14 d ^^^ (gfMul 11 (gfMul 3 d) ^^^ (gfMul 13 (gfMul 2 d) ^^^ gfMul 9 d))))) := by
    simp only [invc1, mixc0, mixc1, mixc2, mixc3, gfMul_xor]
    simp [Nat.xor_assoc, Nat.xor_comm, xor_lcomm]
  rw [hmid, gfz3 a ha, gfid b hb, gfz1 c hc, gfz2 d hd]
  simp

theorem invMixCol2 (a b c d : Nat) (ha : a < 256) (hb : b < 256) (hc : c < 256) (hd : d < 256) :
    invc2 (mixc0 a b c d) (mixc1 a b c d) (mixc2 a b c d) (mixc3 a b c d) = c := by
  have hmid : invc2 (mixc0 a b c d) (mixc1 a b c d) (mixc2 a b c d) (mixc3 a b c d) =
      (gfMul 14 a ^^^ (gfMul 11 (gfMul 3 a) ^^^ (gfMul 13 (gfMul 2 a) ^^^ gfMul 9 a))) ^^^
      ((gfMul 14 b ^^^ (gfMul 11 b ^^^ (gfMul 13 (gfMul 3 b) ^^^ gfMul 9 (gfMul 2 b)))) ^^^
      ((gfMul 14 (gfMul 2 c) ^^^ (gfMul 11 c ^^^ (gfMul 13 c ^^^ gfMul 9 (gfMul 3 c)))) ^^^
      (gfMul 14 (gfMul 3 d) ^^^ (gfMul 11 (gfMul 2 d) ^^^ (gfMul 13 d ^^^ gfMul 9 d))))) := by
    simp only [invc2, mixc0, mixc1, mixc2, mixc3, gfMul_xor]
    simp [Nat.xor_assoc, Nat.xor_comm, xor_lcomm]
  rw [hmid, gfz2 a ha, gfz3 b hb, gfid c hc, gfz1 d hd]
  simp

theorem invMixCol3 (a b c d : Nat) (ha : a < 256) (hb : b < 256) (hc : c < 256) (hd : d < 256) :
    invc3 (mixc0 a b c d) (mixc1 a b c d) (mixc2 a b c d) (mixc3 a b c d) = d := by
  have hmid : invc3 (mixc0 a b c d) (mixc1 a b c d) (mixc2 a b c d) (mixc3 a b c d) =
      (gfMul 14 (gfMul 3 a) ^^^ (gfMul 11 (gfMul 2 a) ^^^ (gfMul 13 a ^^^ gfMul 9 a))) ^^^
      ((gfMul 14 b ^^^ (gfMul 11 (gfMul 3 b) ^^^ (gfMul 13 (gfMul 2 b) ^^^ gfMul 9 b))) ^^^
      ((gfMul 14 c ^^^ (gfMul 11 c ^^^ (gfMul 13 (gfMul 3 c) ^^^ gfMul 9 (gfMul 2 c)))) ^^^
      (gfMul 14 (gfMul 2 d) ^^^ (gfMul 11 d ^^^ (gfMul 13 d ^^^ gfMul 9 (gfMul 3 d)))))) := by
    simp only [invc3, mixc0, mixc1, mixc2, mixc3, gfMul_xor]
    simp [Nat.xor_assoc, Nat.xor_comm, xor_lcomm]
  rw [hmid, gfz1 a ha, gfz2 b hb, gfz3 c hc, gfid d hd]
  simp

theorem xor256 {a b : Nat} (ha : a < 256) (hb : b < 256) : a ^^^ b < 256 := by
  have h256 : (256 : Nat) = 2 ^ 8 := by norm_num
  rw [h256] at ha hb ⊢
  exact Nat.xor_lt_two_pow ha hb

theorem xtime_lt : ∀ x < 256, xtime x < 256 := by decide

theorem getD_lt_256 (l : List Nat) (hl : ∀ x ∈ l, x < 256) (i : Nat) : l.getD i 0 < 256 := by
  by_cases h : i < l.length
  · rw [List.getD_eq_getElem?_getD, List.getElem?_eq_getElem h]
    exact hl _ (List.getElem_mem h)
  · rw [List.getD_eq_default _ _ (by omega)]
    norm_num

theorem sboxTable_all : ∀ x ∈ sboxTable, x < 256 := by decide

theorem invSboxTable_all : ∀ x ∈ invSboxTable, x < 256 := by decide

theorem sbox_lt (x : Nat) : sbox x < 256 := getD_lt_256 _ sboxTable_all x

theorem invSbox_lt (x : Nat) : invSbox x < 256 := getD_lt_256 _ invSboxTable_all x

theorem invSbox_sbox : ∀ x < 256, invSbox (sbox x) = x := by decide

theorem gfMulAux_lt (n : Nat) :
    ∀ (a b acc : Nat), a < 256 → acc < 256 → gfMulAux n a b acc < 256 := by
  induction n with
  | zero => intro a b acc _ hacc; exact hacc
  | succ n ih =>
    intro a b acc ha hacc
    show gfMulAux n (xtime a) (b / 2) _ < 256
    apply ih
    · exact xtime_lt a ha
    · by_cases hb : b % 2 = 1
      · rw [if_pos hb]; exact xor256 hacc ha
      · rw [if_neg hb]; exact hacc

theorem gfMul_lt (a b : Nat) (ha : a < 256) : gfMul a b < 256 :=
  gfMulAux_lt 8 a b 0 ha (by norm_num)

theorem AESBlock.eta (s : AESBlock) :
    s = ⟨s.b0, s.b1, s.b2, s.b3, s.b4, s.b5, s.b6, s.b7,
         s.b8, s.b9, s.b10, s.b11, s.b12, s.b13, s.b14, s.b15⟩ := rfl

theorem invShift_shift (s : AESBlock) : invShiftRows (shiftRows s) = s := rfl

theorem ark_ark (k s : AESBlock) : addRoundKey k (addRoundKey k s) = s := by
  rw [AESBlock.eta s]
  simp only [addRoundKey, AESBlock.mk.injEq]
  refine ⟨?_, ?_, ?_, ?_, ?_, ?_, ?_, ?_, ?_, ?_, ?_, ?_, ?_, ?_, ?_, ?_⟩ <;>
    exact Nat.xor_cancel_left _ _

theorem invSub_sub (s : AESBlock) (hv : s.Valid) : invSubBytes (subBytes s) = s := by
  obtain ⟨h0, h1, h2, h3, h4, h5, h6, h7, h8, h9, h10, h11, h12, h13, h14, h15⟩ := hv
  rw [AESBlock.eta s]
  simp only [subBytes, invSubBytes, AESBlock.mk.injEq]
  exact ⟨invSbox_sbox _ h0, invSbox_sbox _ h1, invSbox_sbox _ h2, invSbox_sbox _ h3,
    invSbox_sbox _ h4, invSbox_sbox _ h5, invSbox_sbox _ h6, invSbox_sbox _ h7,
    invSbox_sbox _ h8, invSbox_sbox _ h9, invSbox_sbox _ h10, invSbox_sbox _ h11,
    invSbox_sbox _ h12, invSbox_sbox _ h13, invSbox_sbox _ h14, invSbox_sbox _ h15⟩

theorem invMix_mix (s : AESBlock) (hv : s.Valid) : invMixColumns (mixColumns s) = s := by
  obtain ⟨h0, h1, h2, h3, h4, h5, h6, h7, h8, h9, h10, h11, h12, h13, h14, h15⟩ := hv
  rw [AESBlock.eta s]
  simp only [mixColumns, invMixColumns, AESBlock.mk.injEq]
  exact ⟨invMixCol0 _ _ _ _ h0 h1 h2 h3, invMixCol1 _ _ _ _ h0 h1 h2 h3,
    invMixCol2 _ _ _ _ h0 h1 h2 h3, invMixCol3 _ _ _ _ h0 h1 h2 h3,
    invMixCol0 _ _ _ _ h4 h5 h6 h7, invMixCol1 _ _ _ _ h4 h5 h6 h7,
    invMixCol2 _ _ _ _ h4 h5 h6 h7, invMixCol3 _ _ _ _ h4 h5 h6 h7,
    invMixCol0 _ _ _ _ h8 h9 h10 h11, invMixCol1 _ _ _ _ h8 h9 h10 h11,
    invMixCol2 _ _ _ _ h8 h9 h10 h11, invMixCol3 _ _ _ _ h8 h9 h10 h11,
    invMixCol0 _ _ _ _ h12 h13 h14 h15, invMixCol1 _ _ _ _ h12 h13 h14 h15,
    invMixCol2 _ _ _ _ h12 h13 h14 h15, invMixCol3 _ _ _ _ h12 h13 h14 h15⟩

theorem valid_sub (s : AESBlock) : (subBytes s).Valid := by
  refine ⟨?_, ?_, ?_, ?_, ?_, ?_, ?_, ?_, ?_, ?_, ?_, ?_, ?_, ?_, ?_, ?_⟩ <;> exact sbox_lt _

theorem valid_shift (s : AESBlock) (hv : s.Valid) : (shiftRows s).Valid := by
  obtain ⟨h0, h1, h2, h3, h4, h5, h6, h7, h8, h9, h10, h11, h12, h13, h14, h15⟩ := hv
  exact ⟨h0, h5, h10, h15, h4, h9, h14, h3, h8, h13, h2, h7, h12, h1, h6, h11⟩

theorem mixc_lt (a b c d : Nat) (ha : a < 256) (hb : b < 256) (hc : c < 256) (hd : d < 256) :
    mixc0 a b c d < 256 ∧ mixc1 a b c d < 256 ∧ mixc2 a b c d < 256 ∧ mixc3 a b c d < 256 := by
  refine ⟨?_, ?_, ?_, ?_⟩ <;> dsimp only [mixc0, mixc1, mixc2, mixc3]
  · exact xor256 (xor256 (xor256 (gfMul_lt 2 a (by norm_num)) (gfMul_lt 3 b (by norm_num))) hc) hd
  · exact xor256 (xor256 (xor256 ha (gfMul_lt 2 b (by norm_num))) (gfMul_lt 3 c (by norm_num))) hd
  · exact xor256 (xor256 (xor256 ha hb) (gfMul_lt 2 c (by norm_num))) (gfMul_lt 3 d (by norm_num))
  · exact xor256 (xor256 (xor256 (gfMul_lt 3 a (by norm_num)) hb) hc) (gfMul_lt 2 d (by norm_num))

theorem valid_mix (s : AESBlock) (hv : s.Valid) : (mixColumns s).Valid := by
  obtain ⟨h0, h1, h2, h3, h4, h5, h6, h7, h8, h9, h10, h11, h12, h13, h14, h15⟩ := hv
  exact ⟨(mixc_lt _ _ _ _ h0 h1 h2 h3).1, (mixc_lt _ _ _ _ h0 h1 h2 h3).2.1,
    (mixc_lt _ _ _ _ h0 h1 h2 h3).2.2.1, (mixc_lt _ _ _ _ h0 h1 h2 h3).2.2.2,
    (mixc_lt _ _ _ _ h4 h5 h6 h7).1, (mixc_lt _ _ _ _ h4 h5 h6 h7).2.1,
    (mixc_lt _ _ _ _ h4 h5 h6 h7).2.2.1, (mixc_lt _ _ _ _ h4 h5 h6 h7).2.2.2,
    (mixc_lt _ _ _ _ h8 h9 h10 h11).1, (mixc_lt _ _ _ _ h8 h9 h10 h11).2.1,
    (mixc_lt _ _ _ _ h8 h9 h10 h11).2.2.1, (mixc_lt _ _ _ _ h8 h9 h10 h11).2.2.2,
    (mixc_lt _ _ _ _ h12 h13 h14 h15).1, (mixc_lt _ _ _ _ h12 h13 h14 h15).2.1,
    (mixc_lt _ _ _ _ h12 h13 h14 h15).2.2.1, (mixc_lt _ _ _ _ h12 h13 h14 h15).2.2.2⟩

theorem valid_ark (k s : AESBlock) (hk : k.Valid) (hs : s.Valid) : (addRoundKey k s).Valid := by
  obtain ⟨k0, k1, k2, k3, k4, k5, k6, k7, k8, k9, k10, k11, k12, k13, k14, k15⟩ := hk
  obtain ⟨h0, h1, h2, h3, h4, h5, h6, h7, h8, h9, h10, h11, h12, h13, h14, h15⟩ := hs
  exact ⟨xor256 k0 h0, xor256 k1 h1, xor256 k2 h2, xor256 k3 h3, xor256 k4 h4, xor256 k5 h5,
    xor256 k6 h6, xor256 k7 h7, xor256 k8 h8, xor256 k9 h9, xor256 k10 h10, xor256 k11 h11,
    xor256 k12 h12, xor256 k13 h13, xor256 k14 h14, xor256 k15 h15⟩

theorem decRounds_encRounds :
    ∀ (ks : List AESBlock), (∀ k ∈ ks, k.Valid) →
      ∀ s : AESBlock, s.Valid → decRounds ks (encRounds ks s) = s := by
  intro ks
  induction ks with
  | nil => intro _ s _; rfl
  | cons k rest ih =>
    intro hv s hs
    cases rest with
    | nil =>
      show invSubBytes (invShiftRows (addRoundKey k (addRoundKey k (shiftRows (subBytes s))))) = s
      rw [ark_ark, invShift_shift, invSub_sub s hs]
    | cons k' rest' =>
      show invSubBytes (invShiftRows (invMixColumns (addRoundKey k
        (decRounds (k' :: rest')
          (encRounds (k' :: rest') (addRoundKey k (mixColumns (shiftRows (subBytes s))))))))) = s
      rw [ih (fun x hx => hv x (List.mem_cons_of_mem _ hx)) _
        (valid_ark _ _ (hv k (List.mem_cons_self _ _))
          (valid_mix _ (valid_shift _ (valid_sub s))))]
      rw [ark_ark, invMix_mix _ (valid_shift _ (valid_sub s)), invShift_shift, invSub_sub s hs]

theorem decryptBlock_encryptBlock (rks : List AESBlock) (hne : rks ≠ [])
    (hv : ∀ k ∈ rks, k.Valid) (s : AESBlock) (hs : s.Valid) :
    decryptBlock rks (encryptBlock rks s) = s := by
  cases rks with
  | nil => exact absurd rfl hne
  | cons k0 rest =>
    show addRoundKey k0 (decRounds rest (encRounds rest (addRoundKey k0 s))) = s
    rw [decRounds_encRounds rest (fun x hx => hv x (List.mem_cons_of_mem _ hx)) _
      (valid_ark _ _ (hv k0 (List.mem_cons_self _ _)) hs)]
    exact ark_ark k0 s

theorem valid_encRounds :
    ∀ (ks : List AESBlock), (∀ k ∈ ks, k.Valid) →
      ∀ s : AESBlock, s.Valid → (encRounds ks s).Valid := by
  intro ks
  induction ks with
  | nil => intro _ s hs; exact hs
  | cons k rest ih =>
    intro hv s hs
    cases rest with
    | nil =>
      exact valid_ark _ _ (hv k (List.mem_cons_self _ _)) (valid_shift _ (valid_sub s))
    | cons k' rest' =>
      exact ih (fun x hx => hv x (List.mem_cons_of_mem _ hx)) _
        (valid_ark _ _ (hv k (List.mem_cons_self _ _)) (valid_mix _ (valid_shift _ (valid_sub s))))

theorem valid_encryptBlock (rks : List AESBlock) (hv : ∀ k ∈ rks, k.Valid)
    (s : AESBlock) (hs : s.Valid) : (encryptBlock rks s).Valid := by
  cases rks with
  | nil => exact hs
  | cons k0 rest =>
    exact valid_encRounds rest (fun x hx => hv x (List.mem_cons_of_mem _ hx)) _
      (valid_ark _ _ (hv k0 (List.mem_cons_self _ _)) hs)

theorem mem_zipXor (z : Nat) (as bs : List Nat) (h : z ∈ zipXor as bs) :
    ∃ a ∈ as, ∃ b ∈ bs, z = a ^^^ b := by
  induction as generalizing bs with
  | nil => simp [zipXor] at h
  | cons a as' ih =>
    cases bs with
    | nil => simp [zipXor] at h
    | cons b bs' =>
      rcases List.mem_cons.mp h with hz | hz
      · exact ⟨a, List.mem_cons_self _ _, b, List.mem_cons_self _ _, hz⟩
      · obtain ⟨a', ha', b', hb', he⟩ := ih bs' hz
        exact ⟨a', List.mem_cons_of_mem _ ha', b', List.mem_cons_of_mem _ hb', he⟩

theorem zipXor_valid (as bs : List Nat) (ha : ∀ x ∈ as, x < 256) (hb : ∀ x ∈ bs, x < 256) :
    ∀ x ∈ zipXor as bs, x < 256 := by
  intro x hx
  obtain ⟨a, ha', b, hb', rfl⟩ := mem_zipXor x as bs hx
  exact xor256 (ha a ha') (hb b hb')

theorem getD_word_valid (ws : List (List Nat)) (h : ∀ w ∈ ws, ∀ x ∈ w, x < 256) (i : Nat) :
    ∀ x ∈ ws.getD i [], x < 256 := by
  by_cases hi : i < ws.length
  · rw [List.getD_eq_getElem?_getD, List.getElem?_eq_getElem hi]
    exact h _ (List.getElem_mem hi)
  · rw [List.getD_eq_default _ _ (by omega)]
    intro x hx
    simp at hx

theorem getLast?_word_valid (ws : List (List Nat)) (h : ∀ w ∈ ws, ∀ x ∈ w, x < 256) :
    ∀ x ∈ ws.getLast?.getD [], x < 256 := by
  cases hl : ws.getLast? with
  | none => intro x hx; simp at hx
  | some w =>
    intro x hx
    exact h w (List.mem_of_mem_getLast? hl) x hx

theorem subWord_valid (w : List Nat) : ∀ x ∈ subWord w, x < 256 := by
  intro x hx
  obtain ⟨y, _, rfl⟩ := List.mem_map.mp hx
  exact sbox_lt y

theorem rotWord_valid (w : List Nat) (h : ∀ x ∈ w, x < 256) : ∀ x ∈ rotWord w, x < 256 := by
  cases w with
  | nil => intro x hx; simp [rotWord] at hx
  | cons a rest =>
    intro x hx
    rcases List.mem_append.mp hx with hr | ha
    · exact h x (List.mem_cons_of_mem _ hr)
    · rw [List.mem_singleton.mp ha]
      exact h a (List.mem_cons_self _ _)

theorem rconTable_all : ∀ x ∈ rconTable, x < 256 := by decide

theorem expandWord_valid (ws : List (List Nat)) (hv : ∀ w ∈ ws, ∀ x ∈ w, x < 256)
    (nk : Nat) :
    ∀ x ∈ (match subWord (rotWord (ws.getLast?.getD [])) with
      | y :: rest => (y ^^^ rconTable.getD (ws.length / nk - 1) 0) :: rest
      | [] => []), x < 256 := by
  cases hsw : subWord (rotWord (ws.getLast?.getD [])) with
  | nil => intro x hx; simp at hx
  | cons y rest =>
    intro x hx
    have hmem : ∀ z ∈ y :: rest, z < 256 := by
      rw [← hsw]
      exact subWord_valid _
    rcases List.mem_cons.mp hx with rfl | hr
    · exact xor256 (hmem y (List.mem_cons_self _ _)) (getD_lt_256 _ rconTable_all _)
    · exact hmem x (List.mem_cons_of_mem _ hr)

theorem expandAux_valid (nk : Nat) :
    ∀ (n : Nat) (ws : List (List Nat)), (∀ w ∈ ws, ∀ x ∈ w, x < 256) →
      ∀ w ∈ expandAux nk n ws, ∀ x ∈ w, x < 256 := by
  intro n
  induction n with
  | zero => intro ws hv; exact hv
  | succ n ih =>
    intro ws hv
    rw [expandAux]
    apply ih
    intro w hw
    rcases List.mem_append.mp hw with hold | hnew
    · exact hv w hold
    · rw [List.mem_singleton.mp hnew]
      have hback := getD_word_valid ws hv (ws.length - nk)
      have hprev := getLast?_word_valid ws hv
      by_cases hc1 : ws.length % nk = 0
      · rw [if_pos hc1]
        exact zipXor_valid _ _ hback (expandWord_valid ws hv nk)
      · rw [if_neg hc1]
        by_cases hc2 : 6 < nk ∧ ws.length % nk = 4
        · rw [if_pos hc2]
          exact zipXor_valid _ _ hback (subWord_valid _)
        · rw [if_neg hc2]
          exact zipXor_valid _ _ hback hprev

theorem expandAux_length (nk : Nat) :
    ∀ (n : Nat) (ws : List (List Nat)), (expandAux nk n ws).length = ws.length + n := by
  intro n
  induction n with
  | zero => intro ws; rfl
  | succ n ih =>
    intro ws
    rw [expandAux, ih]
    simp
    omega

theorem chunksOf4_sub (key : Bytes) : ∀ w ∈ chunksOf4 key, ∀ x ∈ w, x ∈ key := by
  induction key using chunksOf4.induct with
  | case1 b0 b1 b2 b3 rest ih =>
    intro w hw
    rw [chunksOf4] at hw
    rcases List.mem_cons.mp hw with rfl | hr
    · intro x hx
      fin_cases hx <;> simp
    · intro x hx
      have := ih w hr x hx
      simp [this]
  | case2 t h =>
    intro w hw
    cases t with
    | nil => simp [chunksOf4] at hw
    | cons a t' =>
      cases t' with
      | nil => simp [chunksOf4] at hw
      | cons b t2 =>
        cases t2 with
        | nil => simp [chunksOf4] at hw
        | cons c t3 =>
          cases t3 with
          | nil => simp [chunksOf4] at hw
          | cons d t4 => exact absurd rfl (h a b c d t4)

theorem chunksOf4_valid (key : Bytes) (hk : ValidBytes key) :
    ∀ w ∈ chunksOf4 key, ∀ x ∈ w, x < 256 :=
  fun w hw x hx => hk x (chunksOf4_sub key w hw x hx)

theorem groups4_sub (ws : List (List Nat)) :
    ∀ g ∈ groups4 ws, ∀ w ∈ g, w ∈ ws := by
  induction ws using groups4.induct with
  | case1 w0 w1 w2 w3 rest ih =>
    intro g hg
    rw [groups4] at hg
    rcases List.mem_cons.mp hg with rfl | hr
    · intro w hw
      fin_cases hw <;> simp
    · intro w hw
      have := ih g hr w hw
      simp [this]
  | case2 t h =>
    intro g hg
    cases t with
    | nil => simp [groups4] at hg
    | cons a t' =>
      cases t' with
      | nil => simp [groups4] at hg
      | cons b t2 =>
        cases t2 with
        | nil => simp [groups4] at hg
        | cons c t3 =>
          cases t3 with
          | nil => simp [groups4] at hg
          | cons d t4 => exact absurd rfl (h a b c d t4)

theorem blockOfWords_valid (ws : List (List Nat)) (h : ∀ w ∈ ws, ∀ x ∈ w, x < 256) :
    (blockOfWords ws).Valid := by
  refine ⟨?_, ?_, ?_, ?_, ?_, ?_, ?_, ?_, ?_, ?_, ?_, ?_, ?_, ?_, ?_, ?_⟩ <;>
    exact getD_lt_256 _ (getD_word_valid ws h _) _

theorem roundKeys_valid (key : Bytes) (hk : ValidBytes key) :
    ∀ rk ∈ roundKeysOf key, rk.Valid := by
  intro rk hrk
  rw [roundKeysOf] at hrk
  obtain ⟨g, hg, rfl⟩ := List.mem_map.mp hrk
  apply blockOfWords_valid
  intro w hw
  exact expandAux_valid _ _ _ (chunksOf4_valid key hk) w
    (groups4_sub _ g hg w hw)

theorem groups4_ne_nil (ws : List (List Nat)) (h : 4 ≤ ws.length) : groups4 ws ≠ [] := by
  cases ws with
  | nil => simp at h
  | cons a t1 =>
    cases t1 with
    | nil => simp at h
    | cons b t2 =>
      cases t2 with
      | nil => simp at h
      | cons c t3 =>
        cases t3 with
        | nil => simp at h
        | cons d t4 => simp [groups4]

theorem chunksOf4_length (key : Bytes) : (chunksOf4 key).length = key.length / 4 := by
  induction key using chunksOf4.induct with
  | case1 b0 b1 b2 b3 rest ih =>
    rw [chunksOf4]
    simp [ih]
    omega
  | case2 t h =>
    cases t with
    | nil => simp [chunksOf4]
    | cons a t' =>
      cases t' with
      | nil => simp [chunksOf4]
      | cons b t2 =>
        cases t2 with
        | nil => simp [chunksOf4]
        | cons c t3 =>
          cases t3 with
          | nil => simp [chunksOf4]
          | cons d t4 => exact absurd rfl (h a b c d t4)

theorem roundKeysOf_ne_nil (key : Bytes)
    (hlen : key.length = 16 ∨ key.length = 24 ∨ key.length = 32) :
    roundKeysOf key ≠ [] := by
  rw [roundKeysOf]
  intro hcon
  have hmap := congrArg List.length hcon
  simp at hmap
  apply groups4_ne_nil _ _ hmap
  rw [expandAux_length, chunksOf4_length]
  rcases hlen with h | h | h <;> rw [h] <;> norm_num

theorem exists_cons_of_length {α : Type} (l : List α) (n : Nat) (h : l.length = n + 1) :
    ∃ a t, l = a :: t ∧ t.length = n := by
  cases l with
  | nil => simp at h
  | cons a t => exact ⟨a, t, rfl, by simpa using h⟩

theorem listToBlock_blockToList (s : AESBlock) : listToBlock (blockToList s) = s := rfl

theorem blockToList_listToBlock (l : Bytes) (h : l.length = 16) :
    blockToList (listToBlock l) = l := by
  obtain ⟨a0, t0, rfl, h0⟩ := exists_cons_of_length _ _ h
  obtain ⟨a1, t1, rfl, h1⟩ := exists_cons_of_length _ _ h0
  obtain ⟨a2, t2, rfl, h2⟩ := exists_cons_of_length _ _ h1
  obtain ⟨a3, t3, rfl, h3⟩ := exists_cons_of_length _ _ h2
  obtain ⟨a4, t4, rfl, h4⟩ := exists_cons_of_length _ _ h3
  obtain ⟨a5, t5, rfl, h5⟩ := exists_cons_of_length _ _ h4
  obtain ⟨a6, t6, rfl, h6⟩ := exists_cons_of_length _ _ h5
  obtain ⟨a7, t7, rfl, h7⟩ := exists_cons_of_length _ _ h6
  obtain ⟨a8, t8, rfl, h8⟩ := exists_cons_of_length _ _ h7
  obtain ⟨a9, t9, rfl, h9⟩ := exists_cons_of_length _ _ h8
  obtain ⟨a10, t10, rfl, h10⟩ := exists_cons_of_length _ _ h9
  obtain ⟨a11, t11, rfl, h11⟩ := exists_cons_of_length _ _ h10
  obtain ⟨a12, t12, rfl, h12⟩ := exists_cons_of_length _ _ h11
  obtain ⟨a13, t13, rfl, h13⟩ := exists_cons_of_length _ _ h12
  obtain ⟨a14, t14, rfl, h14⟩ := exists_cons_of_length _ _ h13
  obtain ⟨a15, t15, rfl, h15⟩ := exists_cons_of_length _ _ h14
  rw [List.eq_nil_of_length_eq_zero h15]
  rfl

theorem listToBlock_valid (l : Bytes) (h : ValidBytes l) : (listToBlock l).Valid := by
  refine ⟨?_, ?_, ?_, ?_, ?_, ?_, ?_, ?_, ?_, ?_, ?_, ?_, ?_, ?_, ?_, ?_⟩ <;>
    exact getD_lt_256 _ h _

theorem blockToList_valid (s : AESBlock) (hv : s.Valid) : ValidBytes (blockToList s) := by
  obtain ⟨h0, h1, h2, h3, h4, h5, h6, h7, h8, h9, h10, h11, h12, h13, h14, h15⟩ := hv
  intro x hx
  simp only [blockToList, List.mem_cons, List.not_mem_nil, or_false] at hx
  rcases hx with rfl | rfl | rfl | rfl | rfl | rfl | rfl | rfl | rfl | rfl | rfl | rfl | rfl | rfl | rfl | rfl <;>
    assumption

theorem encBytes_length (rks : List AESBlock) (b : Bytes) : (encBytes rks b).length = 16 := rfl

theorem encBytes_valid (rks : List AESBlock) (hv : ∀ k ∈ rks, k.Valid)
    (b : Bytes) (hb : ValidBytes b) : ValidBytes (encBytes rks b) :=
  blockToList_valid _ (valid_encryptBlock rks hv _ (listToBlock_valid b hb))

theorem decBytes_encBytes (rks : List AESBlock) (hne : rks ≠ []) (hv : ∀ k ∈ rks, k.Valid)
    (b : Bytes) (hb : ValidBytes b) (hlen : b.length = 16) :
    decBytes rks (encBytes rks b) = b := by
  rw [decBytes, encBytes, listToBlock_blockToList,
    decryptBlock_encryptBlock rks hne hv _ (listToBlock_valid b hb),
    blockToList_listToBlock _ hlen]

theorem blocks16Aux_congr : ∀ (fuel : Nat) (l : Bytes), l.length ≤ fuel →
    blocks16Aux fuel l = blocks16 l := by
  intro fuel
  induction fuel using Nat.strong_induction_on with
  | _ fuel ih =>
    intro l hl
    cases fuel with
    | zero =>
      rw [Nat.le_zero, List.length_eq_zero] at hl
      subst hl
      rfl
    | succ fuel' =>
      by_cases hne : l = []
      · subst hne
        rfl
      · have hpos : 0 < l.length := List.length_pos.mpr hne
        obtain ⟨n, hn⟩ : ∃ n, l.length = n + 1 := ⟨l.length - 1, by omega⟩
        rw [show blocks16Aux (fuel' + 1) l = l.take 16 :: blocks16Aux fuel' (l.drop 16) from by
          rw [blocks16Aux, if_neg hne]]
        rw [blocks16, hn,
          show blocks16Aux (n + 1) l = l.take 16 :: blocks16Aux n (l.drop 16) from by
            rw [blocks16Aux, if_neg hne]]
        rw [ih fuel' (by omega) _ (by simp; omega), ih n (by omega) _ (by simp; omega)]

theorem blocks16_nil : blocks16 [] = [] := rfl

theorem blocks16_eq (l : Bytes) (hne : l ≠ []) :
    blocks16 l = l.take 16 :: blocks16 (l.drop 16) := by
  have hpos : 0 < l.length := List.length_pos.mpr hne
  obtain ⟨n, hn⟩ : ∃ n, l.length = n + 1 := ⟨l.length - 1, by omega⟩
  rw [blocks16, hn, show blocks16Aux (n + 1) l = l.take 16 :: blocks16Aux n (l.drop 16) from by
    rw [blocks16Aux, if_neg hne]]
  rw [blocks16Aux_congr _ _ (by simp; omega)]

theorem blocks16_join (cs : List Bytes) (h : ∀ c ∈ cs, c.length = 16) :
    blocks16 cs.flatten = cs := by
  induction cs with
  | nil => rfl
  | cons c rest ih =>
    have hc : c.length = 16 := h c (List.mem_cons_self _ _)
    have hne : c ++ rest.flatten ≠ [] := by
      intro hcon
      have := congrArg List.length hcon
      simp [hc] at this
    rw [List.flatten_cons, blocks16_eq _ hne]
    have ht : (c ++ rest.flatten).take 16 = c := by
      rw [← hc, List.take_left]
    have hd : (c ++ rest.flatten).drop 16 = rest.flatten := by
      rw [← hc, List.drop_left]
    rw [ht, hd, ih (fun x hx => h x (List.mem_cons_of_mem _ hx))]

theorem join_blocks16 (l : Bytes) : (blocks16 l).flatten = l := by
  generalize hn : l.length = n
  induction n using Nat.strong_induction_on generalizing l with
  | _ n ih =>
    by_cases hne : l = []
    · subst hne
      rfl
    · have hpos : 0 < l.length := List.length_pos.mpr hne
      rw [blocks16_eq _ hne, List.flatten_cons,
        ih (l.drop 16).length (by simp; omega) _ rfl, List.take_append_drop]

theorem blocks16_length_all (l : Bytes) (h : l.length % 16 = 0) :
    ∀ c ∈ blocks16 l, c.length = 16 := by
  generalize hn : l.length = n
  induction n using Nat.strong_induction_on generalizing l with
  | _ n ih =>
    intro c hc
    by_cases hne : l = []
    · subst hne
      simp [blocks16_nil] at hc
    · have hpos : 0 < l.length := List.length_pos.mpr hne
      rw [blocks16_eq _ hne] at hc
      have hlen : 16 ≤ l.length := by
        rcases Nat.lt_or_ge l.length 16 with hlt | hge
        · omega
        · exact hge
      rcases List.mem_cons.mp hc with rfl | hr
      · simp [List.length_take]
        omega
      · exact ih (l.drop 16).length (by simp; omega) _ (by simp; omega) rfl c hr

theorem blocks16_valid (l : Bytes) (h : ValidBytes l) : ∀ c ∈ blocks16 l, ValidBytes c := by
  generalize hn : l.length = n
  induction n using Nat.strong_induction_on generalizing l with
  | _ n ih =>
    intro c hc
    by_cases hne : l = []
    · subst hne
      simp [blocks16_nil] at hc
    · have hpos : 0 < l.length := List.length_pos.mpr hne
      rw [blocks16_eq _ hne] at hc
      rcases List.mem_cons.mp hc with rfl | hr
      · intro x hx
        exact h x (List.mem_of_mem_take hx)
      · exact ih (l.drop 16).length (by simp; omega) _
          (fun x hx => h x (List.mem_of_mem_drop hx)) rfl c hr

theorem flatten_all16_mod (cs : List Bytes) (h : ∀ c ∈ cs, c.length = 16) :
    cs.flatten.length = 16 * cs.length := by
  induction cs with
  | nil => rfl
  | cons c rest ih =>
    rw [List.flatten_cons]
    simp only [List.length_append, List.length_cons]
    rw [h c (List.mem_cons_self _ _), ih (fun x hx => h x (List.mem_cons_of_mem _ hx))]
    ring

theorem pkcs7pad_mod (d : Bytes) : (pkcs7pad d).length % 16 = 0 := by
  rw [pkcs7pad]
  simp only [List.length_append, List.length_replicate]
  have := Nat.mod_lt d.length (y := 16) (by norm_num)
  omega

theorem pkcs7pad_ne_nil (d : Bytes) : pkcs7pad d ≠ [] := by
  intro h
  have := congrArg List.length h
  rw [pkcs7pad] at this
  simp only [List.length_append, List.length_replicate, List.length_nil] at this
  have := Nat.mod_lt d.length (y := 16) (by norm_num)
  omega

theorem pkcs7pad_valid (d : Bytes) (h : ValidBytes d) : ValidBytes (pkcs7pad d) := by
  intro x hx
  rw [pkcs7pad] at hx
  rcases List.mem_append.mp hx with hd | hr
  · exact h x hd
  · have := List.eq_of_mem_replicate hr
    subst this
    have := Nat.mod_lt d.length (y := 16) (by norm_num)
    omega

theorem pkcs7unpad_pad (d : Bytes) : pkcs7unpad (pkcs7pad d) = some d := by
  have hmod := Nat.mod_lt d.length (y := 16) (by norm_num)
  rw [pkcs7pad, pkcs7unpad]
  have hlen : (d ++ List.replicate (16 - d.length % 16) (16 - d.length % 16)).length
      = d.length + (16 - d.length % 16) := by
    simp
  rw [if_neg (by omega)]
  have hgd : (d ++ List.replicate (16 - d.length % 16) (16 - d.length % 16)).getD
      ((d ++ List.replicate (16 - d.length % 16) (16 - d.length % 16)).length - 1) 0
      = 16 - d.length % 16 := by
    rw [hlen, List.getD_eq_getElem?_getD, List.getElem?_append_right (by omega),
      List.getElem?_replicate, if_pos (by omega)]
    rfl
  rw [hgd, hlen]
  rw [if_pos ?side]
  case side =>
    refine ⟨by omega, by omega, by omega, ?_⟩
    rw [show d.length + (16 - d.length % 16) - (16 - d.length % 16) = d.length from by omega]
    exact List.drop_left d _
  rw [show d.length + (16 - d.length % 16) - (16 - d.length % 16) = d.length from by omega]
  rw [List.take_left]

theorem zipXor_length (a b : Bytes) : (zipXor a b).length = min a.length b.length := by
  simp [zipXor]

theorem zipXor_valid' (a b : Bytes) (ha : ValidBytes a) (hb : ValidBytes b) :
    ValidBytes (zipXor a b) := zipXor_valid a b ha hb

theorem zipXor_cancel_left (a : Bytes) : ∀ b : Bytes, b.length ≤ a.length →
    zipXor a (zipXor a b) = b := by
  induction a with
  | nil =>
    intro b hb
    rw [List.length_nil, Nat.le_zero, List.length_eq_zero] at hb
    subst hb
    rfl
  | cons x a' ih =>
    intro b hb
    cases b with
    | nil => rfl
    | cons y b' =>
      show (x ^^^ (x ^^^ y)) :: zipXor a' (zipXor a' b') = y :: b'
      rw [Nat.xor_cancel_left, ih b' (by simpa using hb)]

theorem ecbDecryptRaw_ecbEncrypt (rks : List AESBlock) (hne : rks ≠ [])
    (hv : ∀ k ∈ rks, k.Valid) (d : Bytes) (hd : ValidBytes d) :
    ecbDecryptRaw rks (ecbEncrypt rks d) = pkcs7pad d := by
  rw [ecbEncrypt, ecbDecryptRaw,
    blocks16_join _ (fun c hc => by
      obtain ⟨b, _, rfl⟩ := List.mem_map.mp hc
      exact encBytes_length rks b)]
  rw [List.map_map]
  have : ∀ c ∈ blocks16 (pkcs7pad d), (decBytes rks ∘ encBytes rks) c = c := by
    intro c hc
    exact decBytes_encBytes rks hne hv c
      (blocks16_valid _ (pkcs7pad_valid d hd) c hc)
      (blocks16_length_all _ (pkcs7pad_mod d) c hc)
  rw [List.map_congr_left this]
  rw [show List.map (fun a => a) (blocks16 (pkcs7pad d)) = blocks16 (pkcs7pad d) from
    List.map_id _]
  rw [join_blocks16]

theorem cbcDec_cbcEnc (rks : List AESBlock) (hne : rks ≠ []) (hv : ∀ k ∈ rks, k.Valid) :
    ∀ (ps : List Bytes), (∀ p ∈ ps, p.length = 16 ∧ ValidBytes p) →
      ∀ (iv : Bytes), iv.length = 16 → ValidBytes iv →
        cbcDec rks iv (cbcEnc rks iv ps) = ps := by
  intro ps
  induction ps with
  | nil => intro _ iv _ _; rfl
  | cons p ps' ih =>
    intro hps iv hivlen hiv
    obtain ⟨hplen, hpv⟩ := hps p (List.mem_cons_self _ _)
    show zipXor iv (decBytes rks (encBytes rks (zipXor iv p))) ::
        cbcDec rks (encBytes rks (zipXor iv p)) (cbcEnc rks (encBytes rks (zipXor iv p)) ps') =
      p :: ps'
    have hxlen : (zipXor iv p).length = 16 := by
      rw [zipXor_length, hivlen, hplen]
      simp
    have hxv : ValidBytes (zipXor iv p) := zipXor_valid' _ _ hiv hpv
    rw [decBytes_encBytes rks hne hv _ hxv hxlen]
    rw [zipXor_cancel_left iv p (by omega)]
    rw [ih (fun q hq => hps q (List.mem_cons_of_mem _ hq)) _
      (encBytes_length _ _)
      (encBytes_valid rks hv _ hxv)]

theorem cbcDecryptRaw_cbcEncrypt (rks : List AESBlock) (hne : rks ≠ [])
    (hv : ∀ k ∈ rks, k.Valid) (iv : Bytes) (hivlen : iv.length = 16) (hiv : ValidBytes iv)
    (d : Bytes) (hd : ValidBytes d) :
    cbcDecryptRaw rks iv (cbcEncrypt rks iv d) = pkcs7pad d := by
  rw [cbcEncrypt, cbcDecryptRaw]
  have hcbc : ∀ (ps : List Bytes) (iv' : Bytes), blocks16 ((cbcEnc rks iv' ps).flatten)
      = cbcEnc rks iv' ps := by
    intro ps iv'
    apply blocks16_join
    intro c hc
    induction ps generalizing iv' with
    | nil => simp [cbcEnc] at hc
    | cons p ps' ih =>
      rw [cbcEnc] at hc
      rcases List.mem_cons.mp hc with rfl | hr
      · exact encBytes_length _ _
      · exact ih _ hr
  rw [hcbc]
  rw [cbcDec_cbcEnc rks hne hv _
    (fun p hp => ⟨blocks16_length_all _ (pkcs7pad_mod d) p hp,
      blocks16_valid _ (pkcs7pad_valid d hd) p hp⟩) iv hivlen hiv]
  exact join_blocks16 _

theorem zipXor_cancel_right : ∀ (d ks : Bytes), d.length ≤ ks.length →
    zipXor (zipXor d ks) ks = d := by
  intro d
  induction d with
  | nil => intro ks _; rfl
  | cons x d' ih =>
    intro ks hks
    cases ks with
    | nil => simp at hks
    | cons k ks' =>
      show ((x ^^^ k) ^^^ k) :: zipXor (zipXor d' ks') ks' = x :: d'
      rw [Nat.xor_cancel_right, ih ks' (by simpa using hks)]

theorem ctrKS_length (rks : List AESBlock) (ivInt n : Nat) : (ctrKS rks ivInt n).length = 16 * n := by
  rw [ctrKS, flatten_all16_mod]
  · simp
  · intro c hc
    obtain ⟨j, _, rfl⟩ := List.mem_map.mp hc
    exact encBytes_length _ _

theorem ctrCrypt_length (rks : List AESBlock) (iv d : Bytes) :
    (ctrCrypt rks iv d).length = d.length := by
  rw [ctrCrypt, zipXor_length, ctrKS_length]
  omega

theorem ctrCrypt_ctrCrypt (rks : List AESBlock) (iv d : Bytes) :
    ctrCrypt rks iv (ctrCrypt rks iv d) = d := by
  rw [show ctrCrypt rks iv (ctrCrypt rks iv d)
      = zipXor (ctrCrypt rks iv d)
          (ctrKS rks (bytesToNatBE iv) (((ctrCrypt rks iv d).length + 15) / 16)) from rfl]
  rw [ctrCrypt_length, ctrCrypt]
  apply zipXor_cancel_right
  rw [ctrKS_length]
  omega

theorem blocks16_ne_nil (l : Bytes) (h : l ≠ []) : blocks16 l ≠ [] := by
  rw [blocks16_eq _ h]
  simp

theorem ecbEncrypt_length (rks : List AESBlock) (d : Bytes) :
    (ecbEncrypt rks d).length = 16 * (blocks16 (pkcs7pad d)).length := by
  rw [ecbEncrypt, flatten_all16_mod]
  · simp
  · intro c hc
    obtain ⟨b, _, rfl⟩ := List.mem_map.mp hc
    exact encBytes_length _ _

theorem ecbEncrypt_ne_nil (rks : List AESBlock) (d : Bytes) : ecbEncrypt rks d ≠ [] := by
  intro h
  have hlen := congrArg List.length h
  rw [ecbEncrypt_length] at hlen
  simp at hlen
  exact blocks16_ne_nil _ (pkcs7pad_ne_nil d) hlen

theorem ecbEncrypt_mod (rks : List AESBlock) (d : Bytes) : (ecbEncrypt rks d).length % 16 = 0 := by
  rw [ecbEncrypt_length]
  omega

theorem cbcEnc_length (rks : List AESBlock) : ∀ (ps : List Bytes) (iv : Bytes),
    (cbcEnc rks iv ps).length = ps.length := by
  intro ps
  induction ps with
  | nil => intro iv; rfl
  | cons p ps' ih =>
    intro iv
    show (cbcEnc rks iv (p :: ps')).length = ps'.length + 1
    rw [cbcEnc]
    simp [ih]

theorem cbcEncrypt_all16 (rks : List AESBlock) : ∀ (ps : List Bytes) (iv : Bytes),
    ∀ c ∈ cbcEnc rks iv ps, c.length = 16 := by
  intro ps
  induction ps with
  | nil => intro iv c hc; simp [cbcEnc] at hc
  | cons p ps' ih =>
    intro iv c hc
    rw [cbcEnc] at hc
    rcases List.mem_cons.mp hc with rfl | hr
    · exact encBytes_length _ _
    · exact ih _ c hr

theorem cbcEncrypt_length (rks : List AESBlock) (iv d : Bytes) :
    (cbcEncrypt rks iv d).length = 16 * (blocks16 (pkcs7pad d)).length := by
  rw [cbcEncrypt, flatten_all16_mod _ (cbcEncrypt_all16 rks _ iv), cbcEnc_length]

theorem cbcEncrypt_ne_nil (rks : List AESBlock) (iv d : Bytes) : cbcEncrypt rks iv d ≠ [] := by
  intro h
  have hlen := congrArg List.length h
  rw [cbcEncrypt_length] at hlen
  simp at hlen
  exact blocks16_ne_nil _ (pkcs7pad_ne_nil d) hlen

theorem cbcEncrypt_mod (rks : List AESBlock) (iv d : Bytes) :
    (cbcEncrypt rks iv d).length % 16 = 0 := by
  rw [cbcEncrypt_length]
  omega

theorem dedupFirst_mem_aux (l acc : List String) (y : String) :
    (y ∈ l.foldl (fun acc x => if acc.contains x then acc else acc ++ [x]) acc) ↔
      y ∈ acc ∨ y ∈ l := by
  induction l generalizing acc with
  | nil => simp
  | cons x xs ih =>
    simp only [List.foldl_cons]
    by_cases hc : acc.contains x
    · rw [if_pos hc]
      rw [ih]
      constructor
      · rintro (h | h)
        · exact Or.inl h
        · exact Or.inr (List.mem_cons_of_mem _ h)
      · rintro (h | h)
        · exact Or.inl h
        · rcases List.mem_cons.mp h with rfl | h
          · exact Or.inl (List.elem_iff.mp hc)
          · exact Or.inr h
    · rw [if_neg hc]
      rw [ih]
      simp only [List.mem_append, List.mem_singleton, List.mem_cons]
      tauto

theorem mem_dedupFirst (l : List String) (y : String) : y ∈ dedupFirst l ↔ y ∈ l := by
  rw [dedupFirst, dedupFirst_mem_aux]
  simp


/-! ### The claims -/

/-- C1: the spec claims no error arising inside a resolution pass ever
escapes `Pipeline.execute` as an exception, the worst observable result
being an empty sink buffer.  The code violates this: on `rc4CrashGraph`
(a TextInput of 257 bytes wired into RC4's key port), resolution reaches
`ARC4.new` with a 257-byte key outside any `try`, and the resulting
`ValueError` propagates out of `execute`. -/
theorem c1_resolution_error_escapes_execute : Pipeline.execute 4 rc4CrashGraph none [] = .error .valueError := by rfl

/-- C2, counterexample: with the XOR key port connected to an upstream
hex input that resolves to the empty buffer (malformed hex `"zz"`), the
shadowed `key_hex` parameter still decides the sink output - two runs
identical except for that parameter differ - so it is not the case that a
connected port always wins over the parameter it shadows. -/
theorem c2_connected_empty_port_uses_parameter :
    Pipeline.execute 4 (xorShadowGraph true "zz" "41" "A") none []
      = .ok ([("Result", [0])], [4, 3, 2, 1]) ∧
    Pipeline.execute 4 (xorShadowGraph true "zz" "42" "A") none []
      = .ok ([("Result", [3])], [4, 3, 2, 1]) ∧
    ([0] : Bytes) ≠ [3] := by
  refine ⟨rfl, rfl, by decide⟩

/-- C2 (amended): the shadowing mechanism every such node (XOR, RC4, AES)
routes through - `resolveShadowed` - uses a non-empty port value over the
parameter fallback and uses the fallback exactly when the port resolves
empty; at graph level, with the XOR key port connected and the upstream
value resolving non-empty, resolution uses the connected upstream value
and the shadowed `key_hex` parameter is irrelevant to the result, while
with the port disconnected, the next resolution uses the text-configured
parameter again. -/
theorem c2_shadowed_port_resolution (up keyp dt : String)
    (h1 : (pyFromHex (removeChar '\n' (removeChar ' ' up))).getD [] ≠ []) :
    (∀ (portVal fallback : Bytes), portVal ≠ [] → resolveShadowed portVal fallback = portVal) ∧
    (∀ fallback : Bytes, resolveShadowed [] fallback = fallback) ∧
    Pipeline.execute 4 (xorShadowGraph true up keyp dt) none []
      = .ok ([("Result",
          XORNode.xorWithKey (utf8Encode dt)
            ((pyFromHex (removeChar '\n' (removeChar ' ' up))).getD []))], [4, 3, 2, 1]) ∧
    Pipeline.execute 4 (xorShadowGraph false up keyp dt) none []
      = .ok ([("Result",
          XORNode.xorWithKey (utf8Encode dt) (keyHexOrZero keyp))], [4, 3, 2]) := by
  refine ⟨fun pv fb hpv => by rw [resolveShadowed, if_neg hpv],
    fun fb => rfl, ?_, ?_⟩
  · simp [Pipeline.execute, Pipeline.setInputs, executeSinks, xorShadowGraph,
      ByteFlowNode.process, processBody, mkNode, findConnTo, findNode, lookupOut,
      NodeData.getProp, defaultParams, XORNode.process, resolveShadowed, h1,
      Except.map, bind, Except.bind]
  · simp [Pipeline.execute, Pipeline.setInputs, executeSinks, xorShadowGraph,
      ByteFlowNode.process, processBody, mkNode, findConnTo, findNode, lookupOut,
      NodeData.getProp, defaultParams, XORNode.process, resolveShadowed,
      Except.map, bind, Except.bind]

/-- C2 witness: the amended shadowing behaviour at a concrete graph. -/
theorem c2_shadowed_port_resolution_witness :
    Pipeline.execute 4 (xorShadowGraph true "41" "ff" "A") none []
      = .ok ([("Result",
          XORNode.xorWithKey (utf8Encode "A")
            ((pyFromHex (removeChar '\n' (removeChar ' ' "41"))).getD []))], [4, 3, 2, 1]) :=
  (c2_shadowed_port_resolution "41" "ff" "A" (by decide)).2.2.1

/-- C3, counterexample: the catalog default for Repeat's count parameter
is the string "2", but an unparsable count makes the node behave as count
1, not as its default - `data * 1` instead of `data * 2`. -/
theorem c3_repeat_fallback_not_default :
    RepeatNode.process "x" [7] = [7] ∧
    (mkNode 1 .repeatData "Repeat" []).getProp "count" = "2" ∧
    RepeatNode.process "2" [7] = [7, 7] ∧ ([7] : Bytes) ≠ [7, 7] := by decide

/-- C3 (amended): a parameter whose string value fails to parse never
propagates an error; ROT-N falls back to its documented default shift 13,
while Repeat falls back to count 1 (not to its catalog default 2). -/
theorem c3_param_parse_fallback :
    (∀ (cnt : String) (data : Bytes), pyInt cnt = none →
      RepeatNode.process cnt data = RepeatNode.process "1" data) ∧
    (∀ (sh : String) (data : Bytes), pyInt sh = none →
      ROTNode.process sh data = ROTNode.process "13" data) := by
  constructor
  · intro cnt data hc
    have h1 : pyInt "1" = some 1 := rfl
    simp [RepeatNode.process, hc, h1]
  · intro sh data hs
    have h13 : pyInt "13" = some 13 := rfl
    simp [ROTNode.process, hs, h13]

/-- C3 witness: the fallbacks at concrete unparsable parameters. -/
theorem c3_param_parse_fallback_witness :
    pyInt "x" = none ∧ RepeatNode.process "x" [7, 8] = RepeatNode.process "1" [7, 8] ∧
    pyInt "q" = none ∧ ROTNode.process "q" [97] = ROTNode.process "13" [97] :=
  ⟨by decide, c3_param_parse_fallback.1 "x" [7, 8] (by decide), by decide,
   c3_param_parse_fallback.2 "q" [97] (by decide)⟩

/-- C4, counterexample: the MD5 node guards empty input to an empty
output, so in Hex format it yields the empty buffer on the empty input
buffer, not the ASCII-hex digest the claim promises - even though the
digest of the empty message is indeed d41d8cd98f00b204e9800998ecf8427e. -/
theorem c4_md5_empty_input_empty_output :
    MD5Node.process "Hex" [] = [] ∧
    MD5Node.process "Hex" [] ≠ asciiBytes "d41d8cd98f00b204e9800998ecf8427e" ∧
    bytesHex (md5 []) = "d41d8cd98f00b204e9800998ecf8427e" := by
  refine ⟨rfl, by decide, by decide⟩

/-- C4 (amended): on the empty buffer the MD5/SHA1/SHA256 nodes output
the empty buffer; on any non-empty buffer they output the digest of the
input, ASCII-hex or raw per the format parameter, deterministically -
e.g. the MD5 node in Hex format maps the byte 0x61 to the ASCII digest
0cc175b9c0f1b6a831c399e269772661. -/
theorem c4_hash_node_digests :
    (∀ data : Bytes, data ≠ [] →
      MD5Node.process "Hex" data = asciiBytes (bytesHex (md5 data)) ∧
      MD5Node.process "Raw" data = md5 data) ∧
    (∀ data : Bytes, data ≠ [] →
      SHA1Node.process "Hex" data = asciiBytes (bytesHex (sha1 data)) ∧
      SHA1Node.process "Raw" data = sha1 data) ∧
    (∀ data : Bytes, data ≠ [] →
      SHA256Node.process "Hex" data = asciiBytes (bytesHex (sha256 data)) ∧
      SHA256Node.process "Raw" data = sha256 data) ∧
    MD5Node.process "Hex" (asciiBytes "a") = asciiBytes "0cc175b9c0f1b6a831c399e269772661" := by
  refine ⟨?_, ?_, ?_, by decide⟩ <;>
    · intro data h
      constructor <;> simp [MD5Node.process, SHA1Node.process, SHA256Node.process, h]

/-- C4 witness: the MD5 node's Hex output at a concrete input. -/
theorem c4_hash_node_digests_witness :
    MD5Node.process "Hex" (asciiBytes "abc") = asciiBytes (bytesHex (md5 (asciiBytes "abc"))) :=
  (c4_hash_node_digests.1 (asciiBytes "abc") (by decide)).1

/-- C5, counterexample: with the empty key, XOR of any non-empty buffer
gives the empty buffer, and a second application stays empty, so the
involution fails for the empty key. -/
theorem c5_xor_empty_key_not_involution :
    XORNode.xorWithKey (XORNode.xorWithKey [65] []) [] ≠ [65] := by decide

/-- C5 (amended): the XOR transform is an involution for every non-empty
data buffer and every non-empty key: applying repeating-key XOR twice
with the same key returns the original buffer. -/
theorem c5_xor_involution (b k : Bytes) (hb : b ≠ []) (hk : k ≠ []) :
    XORNode.xorWithKey (XORNode.xorWithKey b k) k = b := by
  unfold XORNode.xorWithKey
  have hbk : ¬(b = [] ∨ k = []) := by simp [hb, hk]
  rw [if_neg hbk]
  rw [if_neg (by simp [hb, hk])]
  apply List.ext_getElem (by simp)
  intro i h1 h2
  simp [List.getElem_map, List.getElem_enum]
  exact Nat.xor_cancel_right _ _

/-- C5 witness: the involution at a concrete buffer and key. -/
theorem c5_xor_involution_witness :
    XORNode.xorWithKey (XORNode.xorWithKey [1, 2, 3] [255]) [255] = [1, 2, 3] :=
  c5_xor_involution [1, 2, 3] [255] (by decide) (by decide)

/-- C6: for every non-empty buffer and every key of length 16, 24 or 32
with a 16-byte IV, the AES node round-trips in CBC, ECB and CTR modes:
decrypting the encryption of the buffer with the same key and IV returns
the buffer (block padding added before encryption, stripped after
decryption). -/
theorem c6_aes_roundtrip (data key iv : Bytes) (hd : data ≠ []) (hdv : ValidBytes data)
    (hk : key.length = 16 ∨ key.length = 24 ∨ key.length = 32) (hkv : ValidBytes key)
    (hiv : iv.length = 16) (hivv : ValidBytes iv) :
    AESNode.process "CBC Decrypt" "" ""
        (AESNode.process "CBC Encrypt" "" "" data key iv) key iv = data ∧
    AESNode.process "ECB Decrypt" "" ""
        (AESNode.process "ECB Encrypt" "" "" data key iv) key iv = data ∧
    AESNode.process "CTR" "" ""
        (AESNode.process "CTR" "" "" data key iv) key iv = data := by
  have hkne : key ≠ [] := by
    intro h
    rw [h] at hk
    simp at hk
  have hivne : iv ≠ [] := by
    intro h
    rw [h] at hiv
    simp at hiv
  have hrkne : roundKeysOf key ≠ [] := roundKeysOf_ne_nil key hk
  have hrkv : ∀ k ∈ roundKeysOf key, k.Valid := roundKeys_valid key hkv
  have e1 : strContains "CBC Encrypt" "ECB" = false := rfl
  have e2 : strContains "CBC Encrypt" "CTR" = false := rfl
  have e3 : strContains "CBC Encrypt" "Encrypt" = true := rfl
  have e4 : strContains "CBC Decrypt" "ECB" = false := rfl
  have e5 : strContains "CBC Decrypt" "CTR" = false := rfl
  have e6 : strContains "CBC Decrypt" "Encrypt" = false := rfl
  have e7 : strContains "ECB Encrypt" "ECB" = true := rfl
  have e8 : strContains "ECB Encrypt" "Encrypt" = true := rfl
  have e9 : strContains "ECB Decrypt" "ECB" = true := rfl
  have e10 : strContains "ECB Decrypt" "Encrypt" = false := rfl
  have e11 : strContains "CTR" "ECB" = false := rfl
  have e12 : strContains "CTR" "CTR" = true := rfl
  refine ⟨?_, ?_, ?_⟩
  · have henc : AESNode.process "CBC Encrypt" "" "" data key iv
        = cbcEncrypt (roundKeysOf key) iv data := by
      simp [AESNode.process, resolveShadowed, hd, hkne, hivne, hk, hiv, e1, e2, e3]
    rw [henc]
    have hctne := cbcEncrypt_ne_nil (roundKeysOf key) iv data
    have hctmod := cbcEncrypt_mod (roundKeysOf key) iv data
    simp [AESNode.process, resolveShadowed, hctne, hkne, hivne, hk, hiv, e4, e5, e6, hctmod]
    rw [cbcDecryptRaw_cbcEncrypt _ hrkne hrkv iv hiv hivv data hdv, pkcs7unpad_pad]
    rfl
  · have henc : AESNode.process "ECB Encrypt" "" "" data key iv
        = ecbEncrypt (roundKeysOf key) data := by
      simp [AESNode.process, resolveShadowed, hd, hkne, hivne, hk, e7, e8]
    rw [henc]
    have hctne := ecbEncrypt_ne_nil (roundKeysOf key) data
    have hctmod := ecbEncrypt_mod (roundKeysOf key) data
    simp [AESNode.process, resolveShadowed, hctne, hkne, hivne, hk, e9, e10, hctmod]
    rw [ecbDecryptRaw_ecbEncrypt _ hrkne hrkv data hdv, pkcs7unpad_pad]
    rfl
  · have hctne : ctrCrypt (roundKeysOf key) iv data ≠ [] := by
      intro h
      have := congrArg List.length h
      rw [ctrCrypt_length] at this
      simp at this
      exact hd this
    have henc : AESNode.process "CTR" "" "" data key iv
        = ctrCrypt (roundKeysOf key) iv data := by
      simp [AESNode.process, resolveShadowed, hd, hkne, hivne, hk, hiv, e11, e12]
    rw [henc]
    have hdec : AESNode.process "CTR" "" "" (ctrCrypt (roundKeysOf key) iv data) key iv
        = ctrCrypt (roundKeysOf key) iv (ctrCrypt (roundKeysOf key) iv data) := by
      simp [AESNode.process, resolveShadowed, hctne, hkne, hivne, hk, hiv, e11, e12]
    rw [hdec, ctrCrypt_ctrCrypt]

/-- C6 witness: the CBC round-trip at a concrete one-byte buffer with the
all-zero 16-byte key and IV. -/
theorem c6_aes_roundtrip_witness :
    AESNode.process "CBC Decrypt" "" ""
        (AESNode.process "CBC Encrypt" "" "" [65] (List.replicate 16 0) (List.replicate 16 0))
        (List.replicate 16 0) (List.replicate 16 0) = [65] :=
  (c6_aes_roundtrip [65] (List.replicate 16 0) (List.replicate 16 0) (by decide) (by decide)
    (by decide) (by decide) (by decide) (by decide)).1

theorem c7_buildNodes_err (l : List DocNode) (h : ∃ dn ∈ l, parseKind dn.kind = none) :
    ∃ k, buildNodes l = .error (.unknownKind k) := by
  induction l with
  | nil => simp at h
  | cons dn rest ih =>
    rw [buildNodes]
    cases hp : parseKind dn.kind with
    | none => exact ⟨dn.kind, rfl⟩
    | some k0 =>
      obtain ⟨dm, hm, hnone⟩ := h
      rcases List.mem_cons.mp hm with rfl | hm'
      · rw [hp] at hnone; simp at hnone
      · obtain ⟨k, hk⟩ := ih ⟨dm, hm', hnone⟩
        exact ⟨k, by rw [hk]; rfl⟩

/-- C7: loading a persisted document that references an unrecognized node
kind fails with a structural error surfaced to the caller, and the
pipeline's graph is left exactly as it was before the load. -/
theorem c7_load_unknown_kind_aborts (g : Graph) (doc : GraphDoc)
    (h : ∃ dn ∈ doc.nodes, parseKind dn.kind = none) :
    (Pipeline.load g doc).1 = g ∧
      ∃ k, (Pipeline.load g doc).2 = some (.unknownKind k) := by
  obtain ⟨k, hk⟩ := c7_buildNodes_err doc.nodes h
  rw [Pipeline.load]
  have : buildGraph doc = .error (.unknownKind k) := by
    rw [buildGraph]
    show (buildNodes doc.nodes).bind _ = _
    rw [hk]
    rfl
  rw [this]
  exact ⟨rfl, k, rfl⟩

/-- C7 witness: loading a document with an unknown kind over a non-empty
prior graph. -/
theorem c7_load_unknown_kind_aborts_witness :
    (Pipeline.load priorGraph unknownKindDoc).1 = priorGraph ∧
      ∃ k, (Pipeline.load priorGraph unknownKindDoc).2 = some (.unknownKind k) :=
  c7_load_unknown_kind_aborts priorGraph unknownKindDoc (by decide)

/-- C8: the Take Bytes node in Start + Length mode with start -5 and
length 3 returns, on every 10-byte buffer, exactly the bytes at offsets
[5, 8) of that buffer. -/
theorem c8_take_bytes_neg_start (data : Bytes) (h : data.length = 10) :
    TakeBytesNode.process "Start + Length" "-5" "3" data = (data.drop 5).take 3 := by
  obtain ⟨a0, t0, rfl, h0⟩ := exists_cons_of_length _ _ h
  obtain ⟨a1, t1, rfl, h1⟩ := exists_cons_of_length _ _ h0
  obtain ⟨a2, t2, rfl, h2⟩ := exists_cons_of_length _ _ h1
  obtain ⟨a3, t3, rfl, h3⟩ := exists_cons_of_length _ _ h2
  obtain ⟨a4, t4, rfl, h4⟩ := exists_cons_of_length _ _ h3
  obtain ⟨a5, t5, rfl, h5⟩ := exists_cons_of_length _ _ h4
  obtain ⟨a6, t6, rfl, h6⟩ := exists_cons_of_length _ _ h5
  obtain ⟨a7, t7, rfl, h7⟩ := exists_cons_of_length _ _ h6
  obtain ⟨a8, t8, rfl, h8⟩ := exists_cons_of_length _ _ h7
  obtain ⟨a9, t9, rfl, h9⟩ := exists_cons_of_length _ _ h8
  rw [List.eq_nil_of_length_eq_zero h9]
  rfl

/-- C8 witness: the slice at a concrete 10-byte buffer. -/
theorem c8_take_bytes_neg_start_witness :
    TakeBytesNode.process "Start + Length" "-5" "3" [10, 11, 12, 13, 14, 15, 16, 17, 18, 19]
      = [15, 16, 17] :=
  (c8_take_bytes_neg_start [10, 11, 12, 13, 14, 15, 16, 17, 18, 19] (by decide)).trans rfl

/-- C9: resolution is unmemoized - in a full pass over a graph whose
input node feeds two sinks, that node's `process` runs twice (once per
consumer), and every successful `get_output_data`-style resolution
re-invokes the resolved node's `process` (its id heads the trace). -/
theorem c9_unmemoized_resolution :
    (∀ t : String,
      (Pipeline.execute 3 (diamondGraph t) none []).map (fun r => r.2.count 1) = .ok 2) ∧
    (∀ (fuel : Nat) (g : Graph) (n : NodeData) (r : List (String × Bytes) × List Nat),
      ByteFlowNode.process (fuel + 1) g n = .ok r → r.2.head? = some n.id) := by
  constructor
  · intro t
    simp [Pipeline.execute, Pipeline.setInputs, executeSinks, diamondGraph,
      ByteFlowNode.process, processBody, mkNode, findConnTo, findNode, lookupOut,
      Except.map, bind, Except.bind, List.count]
  · intro fuel g n r h
    rw [ByteFlowNode.process] at h
    cases hb : processBody
        (fun port =>
          match findConnTo g n.id port with
          | none => .ok ([], [])
          | some c =>
            match findNode g c.srcNode with
            | none => .ok ([], [])
            | some sn =>
              (ByteFlowNode.process fuel g sn).map (fun r => (lookupOut c.srcPort r.1, r.2)))
        n with
    | error e => rw [hb] at h; simp [Except.map] at h
    | ok p => rw [hb] at h; simp [Except.map] at h; rw [← h]; rfl

/-- C9 witness: the double execution on a concrete diamond graph, and the
head of a concrete resolution trace. -/
theorem c9_unmemoized_resolution_witness :
    (Pipeline.execute 3 (diamondGraph "hi") none []).map (fun r => r.2.count 1) = .ok 2 ∧
    (([("output", utf8Encode "hi")], [1]) : List (String × Bytes) × List Nat).2.head? = some 1 :=
  ⟨c9_unmemoized_resolution.1 "hi",
   c9_unmemoized_resolution.2 0 (diamondGraph "hi")
     (mkNode 1 .textInput "Input" [("text_data", "hi")]) _ (by rfl)⟩

/-- C10: every keyword input of `set_inputs` has its underscores replaced
by spaces before the node lookup, and when no input node bears the
resulting name, a KeyError listing the available input-node names is
raised (and propagates out of `execute`'s named-input handling). -/
theorem c10_set_inputs_underscores_keyerror (g : Graph) (name : String) (data : Bytes) (rest : List (String × Bytes)) :
    Pipeline.setInputs g ((name, data) :: rest)
      = (Pipeline.setInput g (underscoresToSpaces name) data).bind
          (fun g' => Pipeline.setInputs g' rest) ∧
    (underscoresToSpaces name ∉ inputNodeNames g →
      Pipeline.setInput g (underscoresToSpaces name) data
        = .error (.keyError (inputNodeNames g))) ∧
    (underscoresToSpaces name ∉ inputNodeNames g → ∀ (fuel : Nat) (dataOpt : Option Bytes),
      Pipeline.execute fuel g dataOpt ((name, data) :: rest)
        = .error (.keyError (inputNodeNames g))) := by
  have key : underscoresToSpaces name ∉ inputNodeNames g →
      Pipeline.setInput g (underscoresToSpaces name) data
        = .error (.keyError (inputNodeNames g)) := by
    intro hmem
    have hfilter : (inputNodes g).filter (fun n => n.name == underscoresToSpaces name) = [] := by
      rw [List.filter_eq_nil]
      intro n hn hname
      apply hmem
      rw [inputNodeNames, mem_dedupFirst]
      exact List.mem_map.mpr ⟨n, hn, by simpa using hname⟩
    rw [Pipeline.setInput, hfilter]
    rfl
  refine ⟨rfl, key, ?_⟩
  intro hmem fuel dataOpt
  rw [Pipeline.execute]
  show (Pipeline.setInputs g ((name, data) :: rest)).bind _ = _
  rw [Pipeline.setInputs, key hmem]
  rfl

/-- C10 witness: a missing name raises the KeyError listing the available
input-node names. -/
theorem c10_set_inputs_underscores_keyerror_witness :
    Pipeline.setInput ⟨[mkNode 1 .textInput "My Input" []], []⟩
        (underscoresToSpaces "Missing_Node") [7]
      = .error (.keyError (inputNodeNames ⟨[mkNode 1 .textInput "My Input" []], []⟩)) :=
  (c10_set_inputs_underscores_keyerror ⟨[mkNode 1 .textInput "My Input" []], []⟩
    "Missing_Node" [7] []).2.1 (by decide)
